import Mathlib

/-!
# The websocket hub of suzume-backend

A shallow embedding of `internal/websocket/hub.go` and `internal/websocket/message.go`.

* A `*Client` pointer is a natural number.  The only part of a client the hub touches is its
  `send` channel, so the state carries one channel per client reference.  The client itself
  (`client.go`) is not modelled: the capacity of `send` is a field of the channel, and no
  pump takes a frame out of a mailbox while the hub works on a request.
* A Go channel is its buffer, its capacity and its closed flag.  Sending on a closed channel
  and closing a closed channel panic, as they do in Go; a panic ends the run of the hub.
* `h.clients` is a Go map used as a set: a list of keys without duplicates.  A broadcast
  ranges over the keys in the order of the list; `Hub.step_broadcast_order` shows that the
  order does not matter.
* `Hub.Run` is an endless `for { select { ... } }`; one pass of its body is `Hub.step`, and
  `Hub.Run` below processes a finite list of requests in the order the loop receives them.
* `encoding/json` belongs to Go's standard library.  Its encoding of strings and of the
  `Message` struct, its scanner and its compaction pass are written out; `json.Marshal` on
  application payloads is a parameter.
-/

namespace websocket

/-! ## Channels -/

/-- The run-time panics of the channel operations the hub performs. -/
inductive Panic where
  | sendOnClosed
  | closeOfClosed
  deriving DecidableEq

/-- A buffered Go channel: queued elements (head is the oldest), capacity, closed flag.
The capacity of `Client.send` is fixed where the client is constructed, outside the hub. -/
structure Chan (μ : Type) where
  buf : List μ
  cap : Nat
  closed : Bool

namespace Chan

variable {μ : Type}

/-- A new open channel `make(chan T, cap)`. -/
def make (cap : Nat) : Chan μ := ⟨[], cap, false⟩

/-- The buffer has no room left: an enqueue would block. -/
def full (ch : Chan μ) : Bool := decide (ch.cap ≤ ch.buf.length)

/-- The builtin `close(ch)`: panics on a channel that is already closed. -/
def close (ch : Chan μ) : Except Panic (Chan μ) :=
  if ch.closed then .error .closeOfClosed else .ok { ch with closed := true }

/-- The statement `select { case ch <- m: ... default: ... }` seen from the channel: `some`
is the channel after the send case ran, `none` means the default case is taken.  A closed
channel makes the send case ready and the send panics. -/
def trySend (ch : Chan μ) (m : μ) : Except Panic (Option (Chan μ)) :=
  if ch.closed then .error .sendOnClosed
  else if ch.buf.length < ch.cap then .ok (some { ch with buf := ch.buf ++ [m] })
  else .ok none

/-- What one broadcast leaves of an open channel: the message at the tail when there is
room, the closed channel with its queue untouched when there is none. -/
def offer (ch : Chan μ) (m : μ) : Chan μ :=
  if ch.buf.length < ch.cap then { ch with buf := ch.buf ++ [m] } else { ch with closed := true }

end Chan

/-! ## The hub -/

/-- Replace the channel of one client. -/
def setSend {μ : Type} (send : Nat → Chan μ) (client : Nat) (ch : Chan μ) : Nat → Chan μ :=
  fun c => if c = client then ch else send c

/-- The state the hub loop works on: the key set of `h.clients` (a Go map, hence without
duplicates; the list order stands for the iteration order of `range`) and the `send`
channel of every client reference. -/
structure Hub (μ : Type) where
  clients : List Nat
  nodup : clients.Nodup
  send : Nat → Chan μ

/-- What arrives on the three channels `register`, `unregister` and `broadcast`. -/
inductive Request (μ : Type) where
  | register (client : Nat)
  | unregister (client : Nat)
  | broadcast (message : μ)

namespace Hub

variable {μ : Type}

/-- The hub made by `NewHub`: no client registered. -/
def NewHub (send : Nat → Chan μ) : Hub μ := ⟨[], List.nodup_nil, send⟩

/-- The body of the `range h.clients` loop of the broadcast case for one client. -/
def deliver (message : μ) (h : Hub μ) (client : Nat) : Except Panic (Hub μ) :=
  match (h.send client).trySend message with
  | .error p => .error p
  | .ok (some ch) => .ok { h with send := setSend h.send client ch }
  | .ok none =>
    match (h.send client).close with
    | .error p => .error p
    | .ok ch => .ok ⟨h.clients.erase client, h.nodup.erase client, setSend h.send client ch⟩

/-- One pass through the `select` of `Hub.Run`. -/
def step (h : Hub μ) : Request μ → Except Panic (Hub μ)
  | .register client => .ok ⟨h.clients.insert client, h.nodup.insert, h.send⟩
  | .unregister client =>
    if client ∈ h.clients then
      match (h.send client).close with
      | .error p => .error p
      | .ok ch => .ok ⟨h.clients.erase client, h.nodup.erase client, setSend h.send client ch⟩
    else .ok h
  | .broadcast message => h.clients.foldlM (deliver message) h

/-- The loop of `Hub.Run` over the requests it receives, in order. -/
def Run (h : Hub μ) (reqs : List (Request μ)) : Except Panic (Hub μ) :=
  reqs.foldlM step h

/-- The method `GetClientCount`: `len(h.clients)`. -/
def GetClientCount (h : Hub μ) : Nat := h.clients.length

/-- Every registered client has an open `send` channel. -/
def Open (h : Hub μ) : Prop := ∀ c ∈ h.clients, (h.send c).closed = false

end Hub

/-! ## Reading a sequence of requests -/

/-- The client a request registers, if it is a register request. -/
def Request.registers {μ : Type} : Request μ → Option Nat
  | .register c => some c
  | _ => none

/-- The client a request unregisters, if it is an unregister request. -/
def Request.unregisters {μ : Type} : Request μ → Option Nat
  | .unregister c => some c
  | _ => none

/-- The clients of the register requests of a sequence, in order, with repetitions. -/
def registered {μ : Type} (reqs : List (Request μ)) : List Nat :=
  reqs.filterMap Request.registers

/-- The clients of the unregister requests of a sequence, in order, with repetitions. -/
def unregistered {μ : Type} (reqs : List (Request μ)) : List Nat :=
  reqs.filterMap Request.unregisters

/-- Client `c` is not removed from the registry while the requests `reqs` are processed
from the state `h`: none of them is an unregister request for `c`, and none is a broadcast
that is processed while the mailbox of `c` is full. -/
def Hub.Kept {μ : Type} (h : Hub μ) (c : Nat) (reqs : List (Request μ)) : Prop :=
  Request.unregister c ∉ reqs ∧
  ∀ p1 m p2 hm, reqs = p1 ++ Request.broadcast m :: p2 → h.Run p1 = .ok hm →
    (hm.send c).full = false

/-- Walking through a run from `h`: every register request names a client whose channel is
open when the request is processed. -/
def Hub.registersOpen {μ : Type} (h : Hub μ) : List (Request μ) → Bool
  | [] => true
  | r :: rs =>
    (match r with
      | .register c => !(h.send c).closed
      | _ => true) &&
    (match h.step r with
      | .ok h1 => registersOpen h1 rs
      | .error _ => true)

/-! ## Strings and JSON text

`message.go` and `BroadcastTaskUpdate` call `json.Marshal` of Go's standard library, which is
not part of the repository.  JSON text is a list of characters.  A Go string is any byte
sequence; it is kept here in the form Go's UTF-8 decoder reads it: a sequence of well-formed
runes and of bytes that belong to no well-formed rune. -/

/-- One decoding step over a Go string: a well-formed rune, or a byte outside any. -/
inductive GoRune where
  | char (c : Char)
  | bad (byte : Nat)
  deriving DecidableEq

/-- A Go `string`. -/
abbrev GoString := List GoRune

/-- The Go string of a text that is valid UTF-8. -/
def GoString.ofChars (s : List Char) : GoString := s.map GoRune.char

/-- The table `hex` of `encoding/json`. -/
def hexDigit (n : Nat) : Char := "0123456789abcdef".toList.getD n '0'

/-- How the string encoder of `encoding/json` (with HTML escaping, as `json.Marshal` sets it)
writes one rune: the two-character escapes, `\u00XX` for the other control characters and
for `<`, `>`, `&`, `\u2028` and `\u2029` for the two separators U+2028 and U+2029, the rune
itself otherwise.  (Releases of Go before 1.22 write backspace and form feed as `\u0008`
and `\u000c`; both forms are read back alike.) -/
def escapeChar (c : Char) : List Char :=
  if c = '"' then ['\\', '"']
  else if c = '\\' then ['\\', '\\']
  else if c = Char.ofNat 8 then ['\\', 'b']
  else if c = Char.ofNat 12 then ['\\', 'f']
  else if c = '\n' then ['\\', 'n']
  else if c = '\r' then ['\\', 'r']
  else if c = '\t' then ['\\', 't']
  else if c.toNat < 32 ∨ c = '<' ∨ c = '>' ∨ c = '&' then
    ['\\', 'u', '0', '0', hexDigit (c.toNat / 16), hexDigit (c.toNat % 16)]
  else if c.toNat = 0x2028 ∨ c.toNat = 0x2029 then
    ['\\', 'u', '2', '0', '2', hexDigit (c.toNat % 16)]
  else [c]

/-- How the string encoder writes one decoding step: a byte outside any rune becomes the
escape of the replacement character. -/
def escapeRune : GoRune → List Char
  | .char c => escapeChar c
  | .bad _ => ['\\', 'u', 'f', 'f', 'f', 'd']

/-- A Go string as a JSON string literal, as `json.Marshal` writes it. -/
def quote (s : GoString) : List Char :=
  '"' :: (s.map escapeRune).flatten ++ ['"']

/-- The value of a hexadecimal digit, as `getu4` of `encoding/json` reads it. -/
def hexVal (c : Char) : Option Nat :=
  if '0'.toNat ≤ c.toNat ∧ c.toNat ≤ '9'.toNat then some (c.toNat - '0'.toNat)
  else if 'a'.toNat ≤ c.toNat ∧ c.toNat ≤ 'f'.toNat then some (c.toNat - 'a'.toNat + 10)
  else if 'A'.toNat ≤ c.toNat ∧ c.toNat ≤ 'F'.toNat then some (c.toNat - 'A'.toNat + 10)
  else none

/-- The function `getu4`: the number written by a leading `\uXXXX`. -/
def getu4 : List Char → Option Nat
  | b :: u :: x1 :: x2 :: x3 :: x4 :: _ =>
    if b = '\\' ∧ u = 'u' then
      match hexVal x1, hexVal x2, hexVal x3, hexVal x4 with
      | some a1, some a2, some a3, some a4 => some (((a1 * 16 + a2) * 16 + a3) * 16 + a4)
      | _, _, _, _ => none
    else none
  | _ => none

/-- The character a two-character escape stands for. -/
def unescape (e : Char) : Option Char :=
  if e = '"' then some '"'
  else if e = '\\' then some '\\'
  else if e = '/' then some '/'
  else if e = 'b' then some (Char.ofNat 8)
  else if e = 'f' then some (Char.ofNat 12)
  else if e = 'n' then some '\n'
  else if e = 'r' then some '\r'
  else if e = 't' then some '\t'
  else none

/-- The rune of a UTF-16 surrogate pair, the replacement character for anything else
(`utf16.DecodeRune`). -/
def decodeSurrogates (r1 r2 : Nat) : Nat :=
  if 0xd800 ≤ r1 ∧ r1 < 0xdc00 ∧ 0xdc00 ≤ r2 ∧ r2 < 0xe000 then
    (r1 - 0xd800) * 1024 + (r2 - 0xdc00) + 0x10000
  else 0xfffd

/-- Reading a JSON string literal after its opening quote, as the decoder of `encoding/json`
does: the text it stands for and the input left after the closing quote.  Every step uses
one unit of fuel and at least one character. -/
def readStringAux : Nat → List Char → List Char → Option (List Char × List Char)
  | 0, _, _ => none
  | fuel + 1, s, acc =>
    match s with
    | [] => none
    | c :: rest =>
      if c = '"' then some (acc, rest)
      else if c = '\\' then
        match rest with
        | [] => none
        | e :: rest2 =>
          if e = 'u' then
            match getu4 s with
            | none => none
            | some rr =>
              if 0xd800 ≤ rr ∧ rr < 0xe000 then
                match getu4 (s.drop 6) with
                | none => readStringAux fuel (s.drop 6) (acc ++ [Char.ofNat 0xfffd])
                | some rr1 =>
                  if decodeSurrogates rr rr1 = 0xfffd then
                    readStringAux fuel (s.drop 6) (acc ++ [Char.ofNat 0xfffd])
                  else
                    readStringAux fuel (s.drop 12) (acc ++ [Char.ofNat (decodeSurrogates rr rr1)])
              else readStringAux fuel (s.drop 6) (acc ++ [Char.ofNat rr])
          else
            match unescape e with
            | none => none
            | some d => readStringAux fuel rest2 (acc ++ [d])
      else if c.toNat < 32 then none
      else readStringAux fuel rest (acc ++ [c])

/-- Reading a JSON string literal after its opening quote, with fuel for the whole input. -/
def readString (s : List Char) : Option (List Char × List Char) :=
  readStringAux s.length s []

/-- The input after a leading `p`, if it starts with `p`. -/
def expect (p s : List Char) : Option (List Char) :=
  if p.isPrefixOf s then some (s.drop p.length) else none

/-! ## The scanner and the compaction pass of `encoding/json`

`json.Marshal(message)` passes the bytes of the `json.RawMessage` through `compact`, which
checks them with the scanner, drops the white space between tokens and escapes `<`, `>`,
`&`, U+2028 and U+2029.  The scanner is the state machine of `scanner.go`. -/

/-- The constants `parseObjectKey`, `parseObjectValue` and `parseArrayValue`. -/
inductive ParseState where
  | objectKey
  | objectValue
  | arrayValue
  deriving DecidableEq

/-- The state functions of the scanner of `encoding/json`. -/
inductive ScanStep where
  | beginValueOrEmpty | beginValue | beginStringOrEmpty | beginString | endValue | endTop
  | inString | inStringEsc | inStringEscU | inStringEscU1 | inStringEscU12 | inStringEscU123
  | neg | one | zero | dot | dot0 | e | eSign | e0
  | t | tr | tru | f | fa | fal | fals | n | nu | nul
  | error
  deriving DecidableEq

/-- The result codes of a scanner step, as far as the compaction pass tells them apart:
the codes below `scanSkipSpace`, `scanSkipSpace`, `scanEnd` and `scanError`. -/
inductive ScanCode where
  | keep
  | skipSpace
  | stop
  | fail
  deriving DecidableEq

/-- The type `SyntaxError`: an invalid character in some context, or the end of the input. -/
inductive SyntaxError where
  | invalidCharacter (c : Char) (context : String)
  | unexpectedEnd
  deriving DecidableEq

/-- The constant `maxNestingDepth`. -/
def maxNestingDepth : Nat := 10000

/-- The struct `scanner`; the innermost parse state is the head of the list. -/
structure Scanner where
  step : ScanStep
  endTop : Bool
  parseState : List ParseState
  err : Option SyntaxError

namespace Scanner

/-- The scanner after `reset`. -/
def reset : Scanner := ⟨.beginValue, false, [], none⟩

/-- The method `error`. -/
def error (s : Scanner) (c : Char) (context : String) : Scanner × ScanCode :=
  ({ s with step := .error, err := some (.invalidCharacter c context) }, .fail)

/-- The method `pushParseState`, called after the next state function is set. -/
def pushParseState (s : Scanner) (c : Char) (newParseState : ParseState) : Scanner × ScanCode :=
  if (newParseState :: s.parseState).length ≤ maxNestingDepth then
    ({ s with parseState := newParseState :: s.parseState }, .keep)
  else error { s with parseState := newParseState :: s.parseState } c "exceeded max depth"

/-- The method `popParseState`. -/
def popParseState (s : Scanner) : Scanner :=
  match s.parseState.tail with
  | [] => { s with parseState := [], step := .endTop, endTop := true }
  | ps :: rest => { s with parseState := ps :: rest, step := .endValue }

end Scanner

/-- The function `isSpace`. -/
def isSpace (c : Char) : Bool := c = ' ' || c = '\t' || c = '\r' || c = '\n'

/-- A decimal digit. -/
def isDigit (c : Char) : Bool := decide ('0'.toNat ≤ c.toNat ∧ c.toNat ≤ '9'.toNat)

/-- A decimal digit other than zero. -/
def isDigit19 (c : Char) : Bool := decide ('1'.toNat ≤ c.toNat ∧ c.toNat ≤ '9'.toNat)

/-- A hexadecimal digit, in either case. -/
def isHex (c : Char) : Bool :=
  isDigit c || decide ('a'.toNat ≤ c.toNat ∧ c.toNat ≤ 'f'.toNat) ||
    decide ('A'.toNat ≤ c.toNat ∧ c.toNat ≤ 'F'.toNat)

/-- The state after the top-level value: only white space may follow.  The error for another
character is recorded, and reported at the next call. -/
def stateEndTop (s : Scanner) (c : Char) : Scanner × ScanCode :=
  if isSpace c then (s, .stop) else ((s.error c "after top-level value").1, .stop)

/-- The state after a value: the end of the top-level value, or the separator or closing
bracket the enclosing object or array asks for. -/
def stateEndValue (s : Scanner) (c : Char) : Scanner × ScanCode :=
  match s.parseState with
  | [] => stateEndTop { s with step := .endTop, endTop := true } c
  | ps :: rest =>
    if isSpace c then ({ s with step := .endValue }, .skipSpace)
    else
      match ps with
      | .objectKey =>
        if c = ':' then ({ s with parseState := .objectValue :: rest, step := .beginValue }, .keep)
        else s.error c "after object key"
      | .objectValue =>
        if c = ',' then ({ s with parseState := .objectKey :: rest, step := .beginString }, .keep)
        else if c = Char.ofNat 0x7d then (s.popParseState, .keep)
        else s.error c "after object key:value pair"
      | .arrayValue =>
        if c = ',' then ({ s with step := .beginValue }, .keep)
        else if c = ']' then (s.popParseState, .keep)
        else s.error c "after array element"

/-- The state at the beginning of a value. -/
def stateBeginValue (s : Scanner) (c : Char) : Scanner × ScanCode :=
  if isSpace c then (s, .skipSpace)
  else if c = Char.ofNat 0x7b then
    Scanner.pushParseState { s with step := .beginStringOrEmpty } c .objectKey
  else if c = '[' then Scanner.pushParseState { s with step := .beginValueOrEmpty } c .arrayValue
  else if c = '"' then ({ s with step := .inString }, .keep)
  else if c = '-' then ({ s with step := .neg }, .keep)
  else if c = '0' then ({ s with step := .zero }, .keep)
  else if c = 't' then ({ s with step := .t }, .keep)
  else if c = 'f' then ({ s with step := .f }, .keep)
  else if c = 'n' then ({ s with step := .n }, .keep)
  else if isDigit19 c then ({ s with step := .one }, .keep)
  else s.error c "looking for beginning of value"

/-- The state after `[`. -/
def stateBeginValueOrEmpty (s : Scanner) (c : Char) : Scanner × ScanCode :=
  if isSpace c then (s, .skipSpace)
  else if c = ']' then stateEndValue s c
  else stateBeginValue s c

/-- The state at the beginning of an object key. -/
def stateBeginString (s : Scanner) (c : Char) : Scanner × ScanCode :=
  if isSpace c then (s, .skipSpace)
  else if c = '"' then ({ s with step := .inString }, .keep)
  else s.error c "looking for beginning of object key string"

/-- The state after the opening brace of an object. -/
def stateBeginStringOrEmpty (s : Scanner) (c : Char) : Scanner × ScanCode :=
  if isSpace c then (s, .skipSpace)
  else if c = Char.ofNat 0x7d then
    stateEndValue { s with parseState := .objectValue :: s.parseState.tail } c
  else stateBeginString s c

/-- The state inside a string literal. -/
def stateInString (s : Scanner) (c : Char) : Scanner × ScanCode :=
  if c = '"' then ({ s with step := .endValue }, .keep)
  else if c = '\\' then ({ s with step := .inStringEsc }, .keep)
  else if c.toNat < 0x20 then s.error c "in string literal"
  else (s, .keep)

/-- The state after a backslash in a string literal. -/
def stateInStringEsc (s : Scanner) (c : Char) : Scanner × ScanCode :=
  if c = 'b' ∨ c = 'f' ∨ c = 'n' ∨ c = 'r' ∨ c = 't' ∨ c = '\\' ∨ c = '/' ∨ c = '"' then
    ({ s with step := .inString }, .keep)
  else if c = 'u' then ({ s with step := .inStringEscU }, .keep)
  else s.error c "in string escape code"

/-- The four states after `\\u` in a string literal: one hexadecimal digit, then the next
state. -/
def stateHex (next : ScanStep) (s : Scanner) (c : Char) : Scanner × ScanCode :=
  if isHex c then ({ s with step := next }, .keep)
  else s.error c "in \\u hexadecimal character escape"

/-- The state after the leading `0` of a number. -/
def state0 (s : Scanner) (c : Char) : Scanner × ScanCode :=
  if c = '.' then ({ s with step := .dot }, .keep)
  else if c = 'e' ∨ c = 'E' then ({ s with step := .e }, .keep)
  else stateEndValue s c

/-- The state inside the integer part of a number. -/
def state1 (s : Scanner) (c : Char) : Scanner × ScanCode :=
  if isDigit c then ({ s with step := .one }, .keep) else state0 s c

/-- The state after the sign of a number. -/
def stateNeg (s : Scanner) (c : Char) : Scanner × ScanCode :=
  if c = '0' then ({ s with step := .zero }, .keep)
  else if isDigit19 c then ({ s with step := .one }, .keep)
  else s.error c "in numeric literal"

/-- The state after the decimal point. -/
def stateDot (s : Scanner) (c : Char) : Scanner × ScanCode :=
  if isDigit c then ({ s with step := .dot0 }, .keep)
  else s.error c "after decimal point in numeric literal"

/-- The state inside the fraction of a number. -/
def stateDot0 (s : Scanner) (c : Char) : Scanner × ScanCode :=
  if isDigit c then (s, .keep)
  else if c = 'e' ∨ c = 'E' then ({ s with step := .e }, .keep)
  else stateEndValue s c

/-- The state after the sign of an exponent. -/
def stateESign (s : Scanner) (c : Char) : Scanner × ScanCode :=
  if isDigit c then ({ s with step := .e0 }, .keep)
  else s.error c "in exponent of numeric literal"

/-- The state after `e` or `E` in a number. -/
def stateE (s : Scanner) (c : Char) : Scanner × ScanCode :=
  if c = '+' ∨ c = '-' then ({ s with step := .eSign }, .keep) else stateESign s c

/-- The state inside an exponent. -/
def stateE0 (s : Scanner) (c : Char) : Scanner × ScanCode :=
  if isDigit c then (s, .keep) else stateEndValue s c

/-- The state functions inside the literals `true`, `false` and `null`: one expected
letter, then the next state. -/
def stateLetter (expected : Char) (next : ScanStep) (context : String) (s : Scanner) (c : Char) :
    Scanner × ScanCode :=
  if c = expected then ({ s with step := next }, .keep) else s.error c context

/-- The call `s.step(s, c)`. -/
def Scanner.apply (s : Scanner) (c : Char) : Scanner × ScanCode :=
  match s.step with
  | .beginValueOrEmpty => stateBeginValueOrEmpty s c
  | .beginValue => stateBeginValue s c
  | .beginStringOrEmpty => stateBeginStringOrEmpty s c
  | .beginString => stateBeginString s c
  | .endValue => stateEndValue s c
  | .endTop => stateEndTop s c
  | .inString => stateInString s c
  | .inStringEsc => stateInStringEsc s c
  | .inStringEscU => stateHex .inStringEscU1 s c
  | .inStringEscU1 => stateHex .inStringEscU12 s c
  | .inStringEscU12 => stateHex .inStringEscU123 s c
  | .inStringEscU123 => stateHex .inString s c
  | .neg => stateNeg s c
  | .one => state1 s c
  | .zero => state0 s c
  | .dot => stateDot s c
  | .dot0 => stateDot0 s c
  | .e => stateE s c
  | .eSign => stateESign s c
  | .e0 => stateE0 s c
  | .t => stateLetter 'r' .tr "in literal true (expecting 'r')" s c
  | .tr => stateLetter 'u' .tru "in literal true (expecting 'u')" s c
  | .tru => stateLetter 'e' .endValue "in literal true (expecting 'e')" s c
  | .f => stateLetter 'a' .fa "in literal false (expecting 'a')" s c
  | .fa => stateLetter 'l' .fal "in literal false (expecting 'l')" s c
  | .fal => stateLetter 's' .fals "in literal false (expecting 's')" s c
  | .fals => stateLetter 'e' .endValue "in literal false (expecting 'e')" s c
  | .n => stateLetter 'u' .nu "in literal null (expecting 'u')" s c
  | .nu => stateLetter 'l' .nul "in literal null (expecting 'l')" s c
  | .nul => stateLetter 'l' .endValue "in literal null (expecting 'l')" s c
  | .error => (s, .fail)

/-- The method `eof`: `none` for `scanEnd`, the error otherwise. -/
def Scanner.eof (s : Scanner) : Option SyntaxError :=
  match s.err with
  | some e => some e
  | none =>
    if s.endTop then none
    else if (s.apply ' ').1.endTop then none
    else
      match (s.apply ' ').1.err with
      | some e => some e
      | none => some .unexpectedEnd

/-- What the compaction pass writes in place of a character it escapes. -/
def htmlEscape (c : Char) : Option (List Char) :=
  if c = '<' ∨ c = '>' ∨ c = '&' then
    some ['\\', 'u', '0', '0', hexDigit (c.toNat / 16), hexDigit (c.toNat % 16)]
  else if c.toNat = 0x2028 ∨ c.toNat = 0x2029 then
    some ['\\', 'u', '2', '0', '2', hexDigit (c.toNat % 16)]
  else none

/-- The loop of `appendCompact` with escaping. -/
def compactLoop (scan : Scanner) (dst : List Char) : List Char → Scanner × List Char
  | [] => (scan, dst)
  | c :: src =>
    match (scan.apply c).2 with
    | .fail => ((scan.apply c).1, dst ++ (htmlEscape c).getD [])
    | .keep => compactLoop (scan.apply c).1 (dst ++ (htmlEscape c).getD [c]) src
    | _ => compactLoop (scan.apply c).1 (dst ++ (htmlEscape c).getD []) src

/-- The function `appendCompact` with escaping, on an empty destination. -/
def compact (src : List Char) : Except SyntaxError (List Char) :=
  match (compactLoop Scanner.reset [] src).1.eof with
  | some e => .error e
  | none => .ok (compactLoop Scanner.reset [] src).2

/-- The states outside string and number literals in which white space is skipped, and the
two final states. -/
def Scanner.outside (s : Scanner) : Bool :=
  match s.step with
  | .beginValueOrEmpty | .beginValue | .beginStringOrEmpty | .beginString | .endValue
  | .endTop | .error => true
  | _ => false

/-- What holds of every scanner the compaction pass meets: the error state is the state
with an error, the final state the one with `endTop` set, and in every other state neither
is the case. -/
def Scanner.Inv (s : Scanner) : Prop :=
  match s.step with
  | .error => s.err ≠ none
  | .endTop => s.endTop = true ∧ s.err = none
  | _ => s.endTop = false ∧ s.err = none

/-- What one step tells about its character and its next state. -/
def StepFacts (outside : Bool) (c : Char) (r : Scanner × ScanCode) : Prop :=
  r.1.Inv ∧
  (r.2 = .fail → r.1.step = .error) ∧
  (r.2 = .skipSpace → isSpace c = true ∧ r.1.outside = true) ∧
  (r.2 = .stop → r.1.outside = true ∧ (isSpace c = false → r.1.step = .error)) ∧
  (r.2 = .keep → outside = true → isSpace c = false)

/-- Every character of the text gets a code below `scanSkipSpace` and is not escaped. -/
def Scanner.Keeps : Scanner → List Char → Prop
  | _, [] => True
  | s, c :: src => (s.apply c).2 = .keep ∧ htmlEscape c = none ∧ Keeps (s.apply c).1 src

/-- The extent of the JSON value at the head of the input, found with the scanner as the
decoder of `encoding/json` finds it: the characters of the value, without the white space
before it, and the input after it. -/
def scanValueLoop (scan : Scanner) (value : List Char) :
    List Char → Option (List Char × List Char)
  | [] => if scan.eof = none then some (value, []) else none
  | c :: src =>
    match (scan.apply c).2 with
    | .fail => none
    | .stop => some (value, c :: src)
    | .skipSpace =>
      scanValueLoop (scan.apply c).1 (if value = [] then [] else value ++ [c]) src
    | .keep =>
      if (scan.apply c).1.endTop then some (value ++ [c], src)
      else scanValueLoop (scan.apply c).1 (value ++ [c]) src

/-- The JSON value at the head of the input and the input after it. -/
def scanValue (s : List Char) : Option (List Char × List Char) :=
  scanValueLoop Scanner.reset [] s

/-- Dropping the white space at the head of the input. -/
def skipSpace : List Char → List Char
  | [] => []
  | c :: s => if isSpace c then skipSpace s else c :: s

/-- What the code uses of `encoding/json` beyond the encoding of strings and of the
`Message` struct: `Marshal` applied to an application payload of type `α`. -/
structure Encoding (α ε : Type) where
  Marshal : α → Except ε (List Char)

/-! ## message.go -/

/-- The type `MessageType`, a Go string. -/
abbrev MessageType := GoString

def MessageTypeTaskCreated : MessageType := GoString.ofChars "task_created".toList
def MessageTypeTaskUpdated : MessageType := GoString.ofChars "task_updated".toList
def MessageTypeTaskDeleted : MessageType := GoString.ofChars "task_deleted".toList
def MessageTypeTaskStatusChanged : MessageType := GoString.ofChars "task_status_changed".toList
def MessageTypePing : MessageType := GoString.ofChars "ping".toList
def MessageTypePong : MessageType := GoString.ofChars "pong".toList

/-- The struct `Message`: field `Type` with JSON name `type`, field `Payload`, a
`json.RawMessage`, with JSON name `payload`. -/
structure Message where
  type : MessageType
  payload : List Char

/-- The function `NewTaskMessage`. -/
def NewTaskMessage {α ε : Type} (J : Encoding α ε) (msgType : MessageType) (payload : α) :
    Except ε Message :=
  match J.Marshal payload with
  | .error err => .error err
  | .ok payloadBytes => .ok { type := msgType, payload := payloadBytes }

/-- The call `json.Marshal(message)` for a `*Message`: a JSON object with the fields in the
order of the struct, the string field quoted, the raw field passed through `compact`; the
error of `compact` is the error of the call. -/
def marshalMessage (message : Message) : Except SyntaxError (List Char) :=
  match compact message.payload with
  | .error err => .error err
  | .ok raw => .ok ("\x7b\"type\":".toList ++ quote message.type ++
      ",\"payload\":".toList ++ raw ++ "\x7d".toList)

/-- The errors `BroadcastTaskUpdate` can return: the error of `json.Marshal(payload)`, or
the `MarshalerError` of `json.Marshal(message)`, which wraps the error of `compact`. -/
inductive BroadcastError (ε : Type) where
  | payload (err : ε)
  | marshaler (err : SyntaxError)

/-- The method `BroadcastTaskUpdate`: the error it returns (`none` for `nil`) and what it
sends on `h.broadcast`. -/
def Hub.BroadcastTaskUpdate {α ε : Type} (J : Encoding α ε) (msgType : MessageType)
    (payload : α) : Option (BroadcastError ε) × List (Request (List Char)) :=
  match NewTaskMessage J msgType payload with
  | .error err => (some (.payload err), [])
  | .ok message =>
    match marshalMessage message with
    | .error err => (some (.marshaler err), [])
    | .ok messageBytes => (none, [.broadcast messageBytes])

/-- Decoding an envelope: a JSON object with the members `type`, a string, and `payload`,
any value, in the order of the struct, with white space allowed between the tokens.  The
tag is decoded from its string literal; the payload is the raw text of its value, whose
extent the scanner finds. -/
def decodeEnvelope (bytes : List Char) : Option Message :=
  (expect [Char.ofNat 0x7b] (skipSpace bytes)).bind fun s1 =>
  (expect "\"type\"".toList (skipSpace s1)).bind fun s2 =>
  (expect [':'] (skipSpace s2)).bind fun s3 =>
  (expect ['"'] (skipSpace s3)).bind fun s4 =>
  (readString s4).bind fun r5 =>
  (expect [','] (skipSpace r5.2)).bind fun s6 =>
  (expect "\"payload\"".toList (skipSpace s6)).bind fun s7 =>
  (expect [':'] (skipSpace s7)).bind fun s8 =>
  (scanValue s8).bind fun r9 =>
  (expect [Char.ofNat 0x7d] (skipSpace r9.2)).bind fun s10 =>
  if skipSpace s10 = [] then some { type := GoString.ofChars r5.1, payload := r9.1 } else none

/-- The struct `TaskPayload` with its JSON field names; all fields but `id` are left out
when empty. -/
structure TaskPayload where
  ID : GoString
  Title : GoString
  Description : GoString
  StatusID : GoString
  Priority : GoString
  Assignees : List GoString
  Labels : List GoString

/-- A JSON array of strings. -/
def quoteAll (l : List GoString) : List Char :=
  '[' :: (List.intersperse [','] (l.map quote)).flatten ++ [']']

/-- An `omitempty` string field after the first field. -/
def optionalField (name : String) (v : GoString) : List Char :=
  if v = [] then [] else ",\"".toList ++ name.toList ++ "\":".toList ++ quote v

/-- An `omitempty` field holding a slice of strings, after the first field. -/
def optionalList (name : String) (v : List GoString) : List Char :=
  if v = [] then [] else ",\"".toList ++ name.toList ++ "\":".toList ++ quoteAll v

/-- What `json.Marshal` returns for a `TaskPayload`. -/
def marshalTaskPayload (p : TaskPayload) : List Char :=
  "\x7b\"id\":".toList ++ quote p.ID ++ optionalField "title" p.Title ++
    optionalField "description" p.Description ++ optionalField "statusId" p.StatusID ++
    optionalField "priority" p.Priority ++ optionalList "assignees" p.Assignees ++
    optionalList "labels" p.Labels ++ "\x7d".toList

/-- Some payloads a caller can pass as `interface{}`: a task, `nil`, a channel, for which
`encoding/json` has no encoding, and an empty slice wrapped in `depth` further slices. -/
inductive Payload where
  | task (p : TaskPayload)
  | null
  | channel
  | nested (depth : Nat)

/-- The error of the serializer that the examples meet. -/
inductive MarshalError where
  | unsupportedType
  deriving DecidableEq

/-- The serializer on the payloads above. -/
def taskEncoding : Encoding Payload MarshalError where
  Marshal
    | .task p => .ok (marshalTaskPayload p)
    | .null => .ok "null".toList
    | .channel => .error .unsupportedType
    | .nested depth => .ok (List.replicate (depth + 1) '[' ++ List.replicate (depth + 1) ']')

/-- The task with id `42` and nothing else. -/
def task42 : TaskPayload :=
  { ID := GoString.ofChars "42".toList, Title := [], Description := [], StatusID := [],
    Priority := [], Assignees := [], Labels := [] }

/-! ## Concrete states used in the examples -/

/-- Every client starts with an empty open mailbox of the given capacity. -/
def fresh (cap : Nat) : Nat → Chan Nat := fun _ => Chan.make cap

/-- Clients 1 and 2 registered; the mailbox of 1 (capacity 1) is full, that of 2
(capacity 2) has room for one more frame; every other client has an empty open mailbox of
capacity 2. -/
def crowded : Hub Nat :=
  ⟨[1, 2], by decide,
    fun c => if c = 1 then ⟨[5], 1, false⟩ else if c = 2 then ⟨[5], 2, false⟩ else ⟨[], 2, false⟩⟩

/-- Every client starts with an empty open mailbox for 256 frames. -/
def mailboxes : Nat → Chan (List Char) := fun _ => Chan.make 256

/-! ## Basic facts about channels and one delivery -/

namespace Chan

variable {μ : Type}

theorem full_eq_false_iff (ch : Chan μ) : ch.full = false ↔ ch.buf.length < ch.cap := by
  simp [full]

theorem full_eq_true_iff (ch : Chan μ) : ch.full = true ↔ ch.cap ≤ ch.buf.length := by
  simp [full]

theorem close_of_open (ch : Chan μ) (h : ch.closed = false) :
    ch.close = .ok { ch with closed := true } := by
  simp [close, h]

theorem close_of_closed (ch : Chan μ) (h : ch.closed = true) :
    ch.close = .error .closeOfClosed := by
  simp [close, h]

theorem offer_of_full (ch : Chan μ) (m : μ) (h : ch.full = true) :
    ch.offer m = { ch with closed := true } := by
  have : ¬ ch.buf.length < ch.cap := by
    rw [full_eq_true_iff] at h; omega
  simp [offer, this]

theorem offer_of_room (ch : Chan μ) (m : μ) (h : ch.full = false) :
    ch.offer m = { ch with buf := ch.buf ++ [m] } := by
  rw [full_eq_false_iff] at h
  simp [offer, h]

end Chan

theorem setSend_same {μ : Type} (send : Nat → Chan μ) (c : Nat) (ch : Chan μ) :
    setSend send c ch c = ch := by
  simp [setSend]

theorem setSend_other {μ : Type} (send : Nat → Chan μ) (c d : Nat) (ch : Chan μ) (h : d ≠ c) :
    setSend send c ch d = send d := by
  simp [setSend, h]

namespace Hub

variable {μ : Type}

theorem mem_erase_iff (h : Hub μ) (c d : Nat) :
    d ∈ h.clients.erase c ↔ d ≠ c ∧ d ∈ h.clients :=
  h.nodup.mem_erase_iff

/-- A delivery to a closed channel panics. -/
theorem deliver_closed (m : μ) (h : Hub μ) (c : Nat) (hc : (h.send c).closed = true) :
    deliver m h c = .error .sendOnClosed := by
  simp [deliver, Chan.trySend, hc]

/-- A delivery to an open channel succeeds; it leaves `offer` in the channel and takes the
client out of the registry exactly when the channel was full. -/
theorem deliver_open (m : μ) (h : Hub μ) (c : Nat) (hc : (h.send c).closed = false) :
    ∃ h1, deliver m h c = .ok h1 ∧
      h1.send = setSend h.send c ((h.send c).offer m) ∧
      (∀ d, d ∈ h1.clients ↔ d ∈ h.clients ∧ ¬ (d = c ∧ (h.send c).full = true)) := by
  by_cases hroom : (h.send c).buf.length < (h.send c).cap
  · refine ⟨{ h with send := setSend h.send c ((h.send c).offer m) }, ?_, rfl, ?_⟩
    · simp [deliver, Chan.trySend, hc, hroom, Chan.offer]
    · intro d
      have : (h.send c).full = false := (Chan.full_eq_false_iff _).2 hroom
      simp [this]
  · refine ⟨⟨h.clients.erase c, h.nodup.erase c, setSend h.send c ((h.send c).offer m)⟩,
      ?_, rfl, ?_⟩
    · simp [deliver, Chan.trySend, hc, hroom, Chan.offer, Chan.close]
    · intro d
      have : (h.send c).full = true := (Chan.full_eq_true_iff _).2 (by omega)
      simp only [mem_erase_iff, this, and_true]
      tauto

/-- If a delivery returns, the channel was open. -/
theorem deliver_ok_open (m : μ) (h h1 : Hub μ) (c : Nat) (hd : deliver m h c = .ok h1) :
    (h.send c).closed = false := by
  by_contra hc
  have hc2 : (h.send c).closed = true := by simpa using hc
  rw [deliver_closed m h c hc2] at hd
  cases hd

/-- The `range` loop of the broadcast case over keys whose channels are open: it returns,
every key's channel holds `offer`, and exactly the keys with a full channel have left the
registry. -/
theorem foldlM_deliver (m : μ) (keys : List Nat) (hk : keys.Nodup) (h : Hub μ)
    (hopen : ∀ c ∈ keys, (h.send c).closed = false) :
    ∃ h1, keys.foldlM (deliver m) h = .ok h1 ∧
      (∀ c, h1.send c = if c ∈ keys then (h.send c).offer m else h.send c) ∧
      (∀ c, c ∈ h1.clients ↔ c ∈ h.clients ∧ ¬ (c ∈ keys ∧ (h.send c).full = true)) := by
  induction keys generalizing h with
  | nil => exact ⟨h, rfl, by simp, by simp⟩
  | cons k ks ih =>
    obtain ⟨hkn, hks⟩ := List.nodup_cons.1 hk
    obtain ⟨h0, hd, hs, hm⟩ := deliver_open m h k (hopen k (by simp))
    have hopen0 : ∀ c ∈ ks, (h0.send c).closed = false := by
      intro c hc
      have : c ≠ k := fun e => hkn (e ▸ hc)
      rw [hs, setSend_other _ _ _ _ this]
      exact hopen c (by simp [hc])
    obtain ⟨h1, hf, hs1, hm1⟩ := ih hks h0 hopen0
    refine ⟨h1, ?_, ?_, ?_⟩
    · simp [List.foldlM_cons, hd, hf, bind, Except.bind]
    · intro c
      rw [hs1 c, hs]
      by_cases hck : c = k
      · subst hck; simp [hkn, setSend_same]
      · simp [hck, setSend_other _ _ _ _ hck]
    · intro c
      rw [hm1 c, hm c, hs]
      by_cases hck : c = k
      · subst hck; simp [hkn]
      · simp [hck, setSend_other _ _ _ _ hck]

/-- If the `range` loop of the broadcast case returns, every key's channel was open. -/
theorem foldlM_deliver_ok_open (m : μ) (keys : List Nat) (hk : keys.Nodup) (h h1 : Hub μ)
    (hf : keys.foldlM (deliver m) h = .ok h1) : ∀ c ∈ keys, (h.send c).closed = false := by
  induction keys generalizing h with
  | nil => simp
  | cons k ks ih =>
    obtain ⟨hkn, hks⟩ := List.nodup_cons.1 hk
    rw [List.foldlM_cons] at hf
    cases hd : deliver m h k with
    | error p => rw [hd] at hf; cases hf
    | ok h0 =>
      rw [hd] at hf
      have hk0 := deliver_ok_open m h h0 k hd
      obtain ⟨h0', hd', hs, -⟩ := deliver_open m h k hk0
      rw [hd] at hd'
      cases hd'
      intro c hc
      rcases List.mem_cons.1 hc with rfl | hc
      · exact hk0
      · have hne : c ≠ k := fun e => hkn (e ▸ hc)
        have := ih hks h0 hf c hc
        rwa [hs, setSend_other _ _ _ _ hne] at this

/-- A broadcast returns exactly from the states in which every registered client has an
open channel. -/
theorem step_broadcast_ok_iff (h : Hub μ) (m : μ) :
    (∃ h1, h.step (.broadcast m) = .ok h1) ↔ h.Open := by
  constructor
  · rintro ⟨h1, hf⟩
    exact foldlM_deliver_ok_open m h.clients h.nodup h h1 hf
  · intro ho
    obtain ⟨h1, hf, -⟩ := foldlM_deliver m h.clients h.nodup h ho
    exact ⟨h1, hf⟩

/-- The effect of a broadcast that returns, client by client. -/
theorem step_broadcast_spec (h h1 : Hub μ) (m : μ) (hs : h.step (.broadcast m) = .ok h1) :
    (∀ c, h1.send c = if c ∈ h.clients then (h.send c).offer m else h.send c) ∧
    (∀ c, c ∈ h1.clients ↔ c ∈ h.clients ∧ (h.send c).full = false) := by
  have ho : h.Open := (step_broadcast_ok_iff h m).1 ⟨h1, hs⟩
  obtain ⟨h2, hf, hsend, hmem⟩ := foldlM_deliver m h.clients h.nodup h ho
  have : h2 = h1 := by
    have h3 : h.step (.broadcast m) = .ok h2 := hf
    rw [hs] at h3
    cases h3
    rfl
  subst this
  refine ⟨hsend, ?_⟩
  intro c
  rw [hmem c]
  constructor
  · rintro ⟨hc, hn⟩
    refine ⟨hc, ?_⟩
    cases hfull : (h2.send c).full
    · cases hfull2 : (h.send c).full
      · rfl
      · exact absurd ⟨hc, hfull2⟩ hn
    · cases hfull2 : (h.send c).full
      · rfl
      · exact absurd ⟨hc, hfull2⟩ hn
  · rintro ⟨hc, hn⟩
    exact ⟨hc, by simp [hn]⟩

/-! ## Single requests -/

theorem step_register (h : Hub μ) (c : Nat) :
    h.step (.register c) = .ok ⟨h.clients.insert c, h.nodup.insert, h.send⟩ := rfl

theorem step_unregister_absent (h : Hub μ) (c : Nat) (hc : c ∉ h.clients) :
    h.step (.unregister c) = .ok h := by
  simp [step, hc]

theorem step_unregister_open (h : Hub μ) (c : Nat) (hc : c ∈ h.clients)
    (ho : (h.send c).closed = false) :
    h.step (.unregister c) = .ok ⟨h.clients.erase c, h.nodup.erase c,
      setSend h.send c { h.send c with closed := true }⟩ := by
  simp [step, hc, Chan.close, ho]

theorem step_unregister_closed (h : Hub μ) (c : Nat) (hc : c ∈ h.clients)
    (ho : (h.send c).closed = true) :
    h.step (.unregister c) = .error .closeOfClosed := by
  simp [step, hc, Chan.close, ho]

/-- An unregister request that returns: the registry loses the client, and only that
client's channel can have changed, by being closed. -/
theorem step_unregister_spec (h h1 : Hub μ) (c : Nat) (hs : h.step (.unregister c) = .ok h1) :
    (∀ d, d ∈ h1.clients ↔ d ∈ h.clients ∧ d ≠ c) ∧
    (∀ d, d ≠ c → h1.send d = h.send d) ∧
    (c ∈ h.clients → (h.send c).closed = false ∧ h1.send c = { h.send c with closed := true }) ∧
    (c ∉ h.clients → h1 = h) := by
  by_cases hc : c ∈ h.clients
  · cases ho : (h.send c).closed
    · rw [step_unregister_open h c hc ho] at hs
      cases hs
      refine ⟨?_, ?_, ?_, fun hn => absurd hc hn⟩
      · intro d
        simp only [mem_erase_iff]
        tauto
      · intro d hd
        exact setSend_other _ _ _ _ hd
      · intro _
        exact ⟨rfl, setSend_same _ _ _⟩
    · rw [step_unregister_closed h c hc ho] at hs
      cases hs
  · rw [step_unregister_absent h c hc] at hs
    cases hs
    refine ⟨?_, fun _ _ => rfl, fun hc2 => absurd hc2 hc, fun _ => rfl⟩
    intro d
    constructor
    · intro hd
      exact ⟨hd, fun e => hc (e ▸ hd)⟩
    · exact fun hd => hd.1

/-! ## Sequences of requests -/

theorem Run_nil (h : Hub μ) : h.Run [] = .ok h := rfl

theorem Run_cons_ok (h h1 : Hub μ) (r : Request μ) (rs : List (Request μ))
    (hs : h.step r = .ok h1) : h.Run (r :: rs) = h1.Run rs := by
  simp [Run, List.foldlM_cons, hs, bind, Except.bind]

theorem Run_cons_error (h : Hub μ) (p : Panic) (r : Request μ) (rs : List (Request μ))
    (hs : h.step r = .error p) : h.Run (r :: rs) = .error p := by
  simp [Run, List.foldlM_cons, hs, bind, Except.bind]

theorem Run_cons_inv (h h2 : Hub μ) (r : Request μ) (rs : List (Request μ))
    (hr : h.Run (r :: rs) = .ok h2) : ∃ h1, h.step r = .ok h1 ∧ h1.Run rs = .ok h2 := by
  cases hs : h.step r with
  | error p => rw [Run_cons_error h p r rs hs] at hr; cases hr
  | ok h1 => exact ⟨h1, rfl, by rwa [Run_cons_ok h h1 r rs hs] at hr⟩

theorem Run_append_ok (h h1 : Hub μ) (as bs : List (Request μ)) (ha : h.Run as = .ok h1) :
    h.Run (as ++ bs) = h1.Run bs := by
  induction as generalizing h with
  | nil => cases ha; rfl
  | cons a as ih =>
    obtain ⟨h0, hs, hr⟩ := Run_cons_inv h h1 a as ha
    rw [List.cons_append, Run_cons_ok h h0 a _ hs]
    exact ih h0 hr

theorem Run_append_inv (h h2 : Hub μ) (as bs : List (Request μ))
    (hr : h.Run (as ++ bs) = .ok h2) : ∃ h1, h.Run as = .ok h1 ∧ h1.Run bs = .ok h2 := by
  induction as generalizing h with
  | nil => exact ⟨h, rfl, hr⟩
  | cons a as ih =>
    rw [List.cons_append] at hr
    obtain ⟨h0, hs, hr0⟩ := Run_cons_inv h h2 a _ hr
    obtain ⟨h1, ha, hb⟩ := ih h0 hr0
    exact ⟨h1, by rw [Run_cons_ok h h0 a as hs]; exact ha, hb⟩

theorem Run_single (h : Hub μ) (r : Request μ) : h.Run [r] = h.step r := by
  cases hs : h.step r with
  | error p => exact Run_cons_error h p r [] hs
  | ok h1 => rw [Run_cons_ok h h1 r [] hs]; rfl

/-! ## The invariant: registered clients have open channels -/

theorem NewHub_open (send : Nat → Chan μ) : (NewHub send).Open := by
  intro c hc
  cases hc

/-- A request that returns keeps the invariant, provided a register request names a client
whose channel is open. -/
theorem step_open (h h1 : Hub μ) (r : Request μ) (ho : h.Open) (hs : h.step r = .ok h1)
    (hreg : ∀ c, r = .register c → (h.send c).closed = false) : h1.Open := by
  cases r with
  | register c =>
    rw [step_register] at hs
    cases hs
    intro d hd
    rcases List.mem_insert_iff.1 hd with rfl | hd
    · exact hreg d rfl
    · exact ho d hd
  | unregister c =>
    obtain ⟨hmem, hsend, -, -⟩ := step_unregister_spec h h1 c hs
    intro d hd
    obtain ⟨hd1, hd2⟩ := (hmem d).1 hd
    rw [hsend d hd2]
    exact ho d hd1
  | broadcast m =>
    obtain ⟨hsend, hmem⟩ := step_broadcast_spec h h1 m hs
    intro d hd
    obtain ⟨hd1, hd2⟩ := (hmem d).1 hd
    rw [hsend d, if_pos hd1, Chan.offer_of_room _ _ hd2]
    exact ho d hd1

/-- From a state that satisfies the invariant every request returns, unless it registers a
client whose channel is closed (which returns as well, but breaks the invariant). -/
theorem step_ok_of_open (h : Hub μ) (r : Request μ) (ho : h.Open) : ∃ h1, h.step r = .ok h1 := by
  cases r with
  | register c => exact ⟨_, rfl⟩
  | unregister c =>
    by_cases hc : c ∈ h.clients
    · exact ⟨_, step_unregister_open h c hc (ho c hc)⟩
    · exact ⟨_, step_unregister_absent h c hc⟩
  | broadcast m => exact (step_broadcast_ok_iff h m).2 ho

/-- Registering a list of clients, in the order of the list, returns; it changes no
channel and adds exactly the listed clients to the registry. -/
theorem Run_registers (h : Hub μ) (cs : List Nat) :
    ∃ h1, h.Run (cs.map .register) = .ok h1 ∧ h1.send = h.send ∧
      ∀ c, c ∈ h1.clients ↔ c ∈ cs ∨ c ∈ h.clients := by
  induction cs generalizing h with
  | nil => exact ⟨h, rfl, rfl, by simp⟩
  | cons a cs ih =>
    obtain ⟨h1, hr, hs, hm⟩ := ih ⟨h.clients.insert a, h.nodup.insert, h.send⟩
    refine ⟨h1, ?_, hs, ?_⟩
    · rw [List.map_cons, Run_cons_ok h _ _ _ (step_register h a)]
      exact hr
    · intro c
      rw [hm c, List.mem_insert_iff, List.mem_cons]
      tauto

end Hub

/-! ## Registered and unregistered clients of a sequence -/

section Sequences

variable {μ : Type}

theorem mem_registered (reqs : List (Request μ)) (c : Nat) :
    c ∈ registered reqs ↔ Request.register c ∈ reqs := by
  unfold registered
  rw [List.mem_filterMap]
  constructor
  · rintro ⟨r, hr, hc⟩
    cases r with
    | register d =>
      simp only [Request.registers, Option.some.injEq] at hc
      subst hc
      exact hr
    | unregister d => simp [Request.registers] at hc
    | broadcast m => simp [Request.registers] at hc
  · intro hr
    exact ⟨_, hr, rfl⟩

theorem mem_unregistered (reqs : List (Request μ)) (c : Nat) :
    c ∈ unregistered reqs ↔ Request.unregister c ∈ reqs := by
  unfold unregistered
  rw [List.mem_filterMap]
  constructor
  · rintro ⟨r, hr, hc⟩
    cases r with
    | register d => simp [Request.unregisters] at hc
    | unregister d =>
      simp only [Request.unregisters, Option.some.injEq] at hc
      subst hc
      exact hr
    | broadcast m => simp [Request.unregisters] at hc
  · intro hr
    exact ⟨_, hr, rfl⟩

/-- Two duplicate-free lists with the same members have the same length. -/
theorem length_eq_of_mem_iff {l₁ l₂ : List Nat} (h₁ : l₁.Nodup) (h₂ : l₂.Nodup)
    (h : ∀ a, a ∈ l₁ ↔ a ∈ l₂) : l₁.length = l₂.length :=
  ((List.perm_ext_iff_of_nodup h₁ h₂).2 h).length_eq

end Sequences

namespace Hub

variable {μ : Type}

/-- Register and unregister requests only, none of which registers a client after an
unregister request for it: the run returns, the registry holds the clients that were
registered and not unregistered, and only unregistered clients have a closed channel. -/
theorem Run_register_unregister (send0 : Nat → Chan μ) (hopen : ∀ c, (send0 c).closed = false)
    (reqs : List (Request μ)) (hreq : ∀ r ∈ reqs, ∀ m, r ≠ .broadcast m)
    (hdisc : ∀ pre post c, reqs = pre ++ .register c :: post → Request.unregister c ∉ pre) :
    ∃ h, (NewHub send0).Run reqs = .ok h ∧
      (∀ c, c ∈ h.clients ↔ c ∈ registered reqs ∧ c ∉ unregistered reqs) ∧
      (∀ c, (h.send c).closed = true → c ∈ unregistered reqs) := by
  induction reqs using List.reverseRecOn with
  | nil =>
    refine ⟨NewHub send0, rfl, ?_, ?_⟩
    · intro c
      simp [NewHub, registered]
    · intro c hc
      have := hopen c
      simp only [NewHub] at hc
      rw [this] at hc
      cases hc
  | append_singleton init r ih =>
    have hreq0 : ∀ r ∈ init, ∀ m, r ≠ .broadcast m := fun x hx =>
      hreq x (List.mem_append_left _ hx)
    have hdisc0 : ∀ pre post c, init = pre ++ .register c :: post →
        Request.unregister c ∉ pre := by
      intro pre post c he
      exact hdisc pre (post ++ [r]) c (by rw [he]; simp)
    obtain ⟨hmid, hrun, hmem, hclosed⟩ := ih hreq0 hdisc0
    have hrun2 : (NewHub send0).Run (init ++ [r]) = hmid.step r := by
      rw [Run_append_ok _ hmid _ _ hrun, Run_single]
    cases r with
    | broadcast m => exact absurd rfl (hreq (.broadcast m) (by simp) m)
    | register c =>
      have hcu : c ∉ unregistered init := by
        rw [mem_unregistered]
        exact hdisc init [] c rfl
      refine ⟨_, by rw [hrun2]; rfl, ?_, ?_⟩
      · intro d
        simp only [List.mem_insert_iff, hmem d, registered, unregistered,
          List.filterMap_append, List.mem_append]
        simp only [List.filterMap_cons, Request.registers, Request.unregisters,
          List.filterMap_nil, List.mem_singleton, List.not_mem_nil, or_false]
        constructor
        · rintro (rfl | ⟨h1, h2⟩)
          · exact ⟨Or.inr rfl, hcu⟩
          · exact ⟨Or.inl h1, h2⟩
        · rintro ⟨h1 | rfl, h2⟩
          · exact Or.inr ⟨h1, h2⟩
          · exact Or.inl rfl
      · intro d hd
        have := hclosed d hd
        simp only [unregistered, List.filterMap_append, List.mem_append]
        exact Or.inl this
    | unregister c =>
      have hun : ∀ d, d ∈ unregistered (init ++ [Request.unregister c]) ↔
          d ∈ unregistered init ∨ d = c := by
        intro d
        simp [unregistered, List.filterMap_append, Request.unregisters]
      have hre : ∀ d, d ∈ registered (init ++ [Request.unregister c]) ↔
          d ∈ registered init := by
        intro d
        simp [registered, List.filterMap_append, Request.registers]
      by_cases hc : c ∈ hmid.clients
      · have hco : (hmid.send c).closed = false := by
          cases hcl : (hmid.send c).closed
          · rfl
          · exact absurd (hclosed c hcl) ((hmem c).1 hc).2
        have hs := step_unregister_open hmid c hc hco
        obtain ⟨hm1, hs1, hself, -⟩ := step_unregister_spec hmid _ c hs
        refine ⟨_, by rw [hrun2]; exact hs, ?_, ?_⟩
        · intro d
          rw [hm1 d, hmem d, hun d, hre d]
          tauto
        · intro d hd
          rw [hun d]
          by_cases hdc : d = c
          · exact Or.inr hdc
          · rw [hs1 d hdc] at hd
            exact Or.inl (hclosed d hd)
      · have hs := step_unregister_absent hmid c hc
        refine ⟨hmid, by rw [hrun2]; exact hs, ?_, ?_⟩
        · intro d
          rw [hmem d, hun d, hre d]
          constructor
          · rintro ⟨h1, h2⟩
            refine ⟨h1, ?_⟩
            rintro (h3 | rfl)
            · exact h2 h3
            · exact hc ((hmem d).2 ⟨h1, h2⟩)
          · rintro ⟨h1, h2⟩
            exact ⟨h1, fun h3 => h2 (Or.inl h3)⟩
        · intro d hd
          rw [hun d]
          exact Or.inl (hclosed d hd)

end Hub

section Discipline

variable {μ : Type}

/-- The order condition on a sequence, read off pairs of requests. -/
theorem no_register_after_unregister (reqs : List (Request μ))
    (hp : reqs.Pairwise (fun a b => ∀ c, a = Request.unregister c → b ≠ Request.register c)) :
    ∀ pre post c, reqs = pre ++ Request.register c :: post → Request.unregister c ∉ pre := by
  intro pre post c he hm
  subst he
  rw [List.pairwise_append] at hp
  exact hp.2.2 _ hm _ (List.mem_cons_self _ _) c rfl rfl

end Discipline

namespace Hub

variable {μ : Type}

/-! ## Which requests remove a client -/

/-- Membership after one request: the request registers the client, or the client was
registered and the request neither unregisters it nor is a broadcast finding it full. -/
theorem mem_step (h h1 : Hub μ) (r : Request μ) (hs : h.step r = .ok h1) (c : Nat) :
    c ∈ h1.clients ↔ r = .register c ∨
      (c ∈ h.clients ∧ r ≠ .unregister c ∧ ∀ m, r = .broadcast m → (h.send c).full = false) := by
  cases r with
  | register d =>
    rw [step_register] at hs
    cases hs
    simp only [List.mem_insert_iff, Request.register.injEq, ne_eq, not_false_eq_true,
      true_and, reduceCtorEq, false_implies, implies_true, and_true]
    constructor
    · rintro (rfl | hc)
      · exact Or.inl rfl
      · exact Or.inr hc
    · rintro (rfl | hc)
      · exact Or.inl rfl
      · exact Or.inr hc
  | unregister d =>
    obtain ⟨hmem, -, -, -⟩ := step_unregister_spec h h1 d hs
    rw [hmem c]
    simp only [reduceCtorEq, false_or, ne_eq, Request.unregister.injEq, false_implies,
      implies_true, and_true]
    constructor
    · rintro ⟨h1, h2⟩
      exact ⟨h1, fun e => h2 e.symm⟩
    · rintro ⟨h1, h2⟩
      exact ⟨h1, fun e => h2 e.symm⟩
  | broadcast m =>
    obtain ⟨-, hmem⟩ := step_broadcast_spec h h1 m hs
    rw [hmem c]
    simp only [reduceCtorEq, false_or, ne_eq, not_false_eq_true, Request.broadcast.injEq,
      true_and]
    constructor
    · rintro ⟨h1, h2⟩
      exact ⟨h1, fun _ _ => h2⟩
    · rintro ⟨h1, h2⟩
      exact ⟨h1, h2 m rfl⟩

theorem kept_nil (h : Hub μ) (c : Nat) : h.Kept c [] := by
  refine ⟨by simp, ?_⟩
  intro p1 m p2 hm he
  cases p1 <;> cases he

theorem kept_cons (h h1 : Hub μ) (r : Request μ) (rs : List (Request μ))
    (hs : h.step r = .ok h1) (c : Nat) :
    h.Kept c (r :: rs) ↔
      (r ≠ .unregister c ∧ ∀ m, r = .broadcast m → (h.send c).full = false) ∧ h1.Kept c rs := by
  constructor
  · rintro ⟨hu, hb⟩
    refine ⟨⟨?_, ?_⟩, ?_, ?_⟩
    · intro e
      exact hu (by rw [e]; exact List.mem_cons_self _ _)
    · intro m e
      exact hb [] m rs h (by rw [e]; rfl) rfl
    · intro hm
      exact hu (List.mem_cons_of_mem _ hm)
    · intro p1 m p2 hm he hr
      exact hb (r :: p1) m p2 hm (by rw [he]; rfl) (by rw [Run_cons_ok h h1 r p1 hs]; exact hr)
  · rintro ⟨⟨hu, hb⟩, hu1, hb1⟩
    refine ⟨?_, ?_⟩
    · intro hm
      rcases List.mem_cons.1 hm with e | hm
      · exact hu e.symm
      · exact hu1 hm
    · intro p1 m p2 hm he hr
      cases p1 with
      | nil =>
        simp only [List.nil_append, List.cons.injEq] at he
        cases hr
        exact hb m he.1
      | cons a p1 =>
        simp only [List.cons_append, List.cons.injEq] at he
        obtain ⟨rfl, rfl⟩ := he
        rw [Run_cons_ok h h1 _ p1 hs] at hr
        exact hb1 p1 m p2 hm rfl hr

/-- Membership after a run that returns: the client was registered at the start and kept
throughout, or it is registered by some request and kept from then on. -/
theorem mem_Run (h h2 : Hub μ) (reqs : List (Request μ)) (hr : h.Run reqs = .ok h2) (c : Nat) :
    c ∈ h2.clients ↔ (c ∈ h.clients ∧ h.Kept c reqs) ∨
      ∃ pre post hm, reqs = pre ++ .register c :: post ∧
        h.Run (pre ++ [.register c]) = .ok hm ∧ hm.Kept c post := by
  induction reqs generalizing h with
  | nil =>
    cases hr
    constructor
    · intro hc
      exact Or.inl ⟨hc, kept_nil _ c⟩
    · rintro (⟨hc, -⟩ | ⟨pre, post, hm, he, -⟩)
      · exact hc
      · cases pre <;> cases he
  | cons r rs ih =>
    obtain ⟨h1, hs, hr1⟩ := Run_cons_inv h h2 r rs hr
    rw [ih h1 hr1]
    constructor
    · rintro (⟨hc, hk⟩ | ⟨pre, post, hm, he, hrun, hk⟩)
      · rcases (mem_step h h1 r hs c).1 hc with e | ⟨hc0, hrem⟩
        · refine Or.inr ⟨[], rs, h1, by rw [e]; rfl, ?_, hk⟩
          rw [List.nil_append, Run_single, ← e]
          exact hs
        · exact Or.inl ⟨hc0, (kept_cons h h1 r rs hs c).2 ⟨hrem, hk⟩⟩
      · refine Or.inr ⟨r :: pre, post, hm, by rw [he]; rfl, ?_, hk⟩
        rw [List.cons_append, Run_cons_ok h h1 r _ hs]
        exact hrun
    · rintro (⟨hc, hk⟩ | ⟨pre, post, hm, he, hrun, hk⟩)
      · obtain ⟨hrem, hk1⟩ := (kept_cons h h1 r rs hs c).1 hk
        exact Or.inl ⟨(mem_step h h1 r hs c).2 (Or.inr ⟨hc, hrem⟩), hk1⟩
      · cases pre with
        | nil =>
          simp only [List.nil_append, List.cons.injEq] at he
          obtain ⟨rfl, rfl⟩ := he
          rw [List.nil_append, Run_single, hs] at hrun
          cases hrun
          exact Or.inl ⟨(mem_step h h1 _ hs c).2 (Or.inl rfl), hk⟩
        | cons a pre =>
          simp only [List.cons_append, List.cons.injEq] at he
          obtain ⟨rfl, rfl⟩ := he
          rw [List.cons_append, Run_cons_ok h h1 _ _ hs] at hrun
          exact Or.inr ⟨pre, post, hm, rfl, hrun, hk⟩

end Hub

namespace Hub

variable {μ : Type}

/-! ## Runs in which only clients with an open channel are registered -/

/-- From a state that satisfies the invariant, a run in which every register request finds
the channel of its client open returns, in a state that satisfies the invariant. -/
theorem Run_ok_of_open (h : Hub μ) (ho : h.Open) (reqs : List (Request μ))
    (hdisc : ∀ pre c post hm, reqs = pre ++ .register c :: post → h.Run pre = .ok hm →
      (hm.send c).closed = false) :
    ∃ h1, h.Run reqs = .ok h1 ∧ h1.Open := by
  induction reqs generalizing h with
  | nil => exact ⟨h, rfl, ho⟩
  | cons r rs ih =>
    obtain ⟨h0, hs⟩ := step_ok_of_open h r ho
    have ho0 : h0.Open := by
      apply step_open h h0 r ho hs
      intro c e
      exact hdisc [] c rs h (by rw [e]; rfl) rfl
    have hdisc0 : ∀ pre c post hm, rs = pre ++ .register c :: post → h0.Run pre = .ok hm →
        (hm.send c).closed = false := by
      intro pre c post hm he hr
      exact hdisc (r :: pre) c post hm (by rw [he]; rfl) (by rw [Run_cons_ok h h0 r pre hs]; exact hr)
    obtain ⟨h1, hr, ho1⟩ := ih h0 ho0 hdisc0
    exact ⟨h1, by rw [Run_cons_ok h h0 r rs hs]; exact hr, ho1⟩

theorem registersOpen_sound (h : Hub μ) (reqs : List (Request μ))
    (hb : h.registersOpen reqs = true) :
    ∀ pre c post hm, reqs = pre ++ .register c :: post → h.Run pre = .ok hm →
      (hm.send c).closed = false := by
  induction reqs generalizing h with
  | nil =>
    intro pre c post hm he
    cases pre <;> cases he
  | cons r rs ih =>
    intro pre c post hm he hr
    simp only [registersOpen, Bool.and_eq_true] at hb
    cases pre with
    | nil =>
      simp only [List.nil_append, List.cons.injEq] at he
      cases hr
      have h1 := hb.1
      rw [he.1] at h1
      simpa using h1
    | cons a pre =>
      simp only [List.cons_append, List.cons.injEq] at he
      obtain ⟨rfl, rfl⟩ := he
      obtain ⟨h0, hs, hr0⟩ := Run_cons_inv h hm _ pre hr
      have h2 := hb.2
      rw [hs] at h2
      exact ih h0 h2 pre c post hm rfl hr0

end Hub

namespace Hub

variable {μ : Type}

/-! ## A run of broadcasts, seen from one client -/

/-- A sequence of broadcasts from a state that satisfies the invariant returns.  A client that
is not registered is left alone.  A registered client receives the broadcasts, in order,
until its mailbox is full; the next broadcast closes the mailbox and removes the client. -/
theorem Run_broadcasts (h : Hub μ) (ho : h.Open) (msgs : List μ) (c : Nat) :
    ∃ h1, h.Run (msgs.map .broadcast) = .ok h1 ∧ h1.Open ∧
      (c ∉ h.clients → c ∉ h1.clients ∧ h1.send c = h.send c) ∧
      (c ∈ h.clients → (h.send c).buf.length ≤ (h.send c).cap →
        (h1.send c).buf =
          (h.send c).buf ++ msgs.take ((h.send c).cap - (h.send c).buf.length) ∧
        (c ∈ h1.clients ↔ (h.send c).buf.length + msgs.length ≤ (h.send c).cap) ∧
        ((h1.send c).closed = true ↔
          (h.send c).cap < (h.send c).buf.length + msgs.length)) := by
  induction msgs generalizing h with
  | nil =>
    refine ⟨h, rfl, ho, fun hc => ⟨hc, rfl⟩, ?_⟩
    intro hc hle
    refine ⟨by simp, ?_, ?_⟩
    · simp [hc, hle]
    · rw [ho c hc]
      simp only [Bool.false_eq_true, List.length_nil, Nat.add_zero, false_iff, not_lt]
      exact hle
  | cons m ms ih =>
    obtain ⟨h0, hs⟩ := (step_broadcast_ok_iff h m).2 ho
    have ho0 : h0.Open := step_open h h0 _ ho hs (fun _ e => by cases e)
    obtain ⟨hsend, hmem⟩ := step_broadcast_spec h h0 m hs
    obtain ⟨h1, hr, ho1, hout, hin⟩ := ih h0 ho0
    refine ⟨h1, ?_, ho1, ?_, ?_⟩
    · rw [List.map_cons, Run_cons_ok h h0 _ _ hs]
      exact hr
    · intro hc
      have hc0 : c ∉ h0.clients := fun x => hc ((hmem c).1 x).1
      obtain ⟨h2, h3⟩ := hout hc0
      exact ⟨h2, by rw [h3, hsend c, if_neg hc]⟩
    · intro hc hle
      by_cases hroom : (h.send c).buf.length < (h.send c).cap
      · have hfull : (h.send c).full = false := (Chan.full_eq_false_iff _).2 hroom
        have hc0 : c ∈ h0.clients := (hmem c).2 ⟨hc, hfull⟩
        have hch : h0.send c = { h.send c with buf := (h.send c).buf ++ [m] } := by
          rw [hsend c, if_pos hc, Chan.offer_of_room _ _ hfull]
        have hle0 : (h0.send c).buf.length ≤ (h0.send c).cap := by
          rw [hch]
          simp only [List.length_append, List.length_singleton]
          omega
        obtain ⟨hb, hm1, hcl⟩ := hin hc0 hle0
        rw [hch] at hb hm1 hcl
        simp only [List.length_append, List.length_singleton] at hb hm1 hcl
        refine ⟨?_, ?_, ?_⟩
        · rw [hb]
          have : (h.send c).cap - (h.send c).buf.length =
              ((h.send c).cap - ((h.send c).buf.length + 1)) + 1 := by omega
          rw [this, List.take_succ_cons]
          simp
        · rw [hm1, List.length_cons]
          omega
        · rw [hcl, List.length_cons]
          omega
      · have hfull : (h.send c).full = true := (Chan.full_eq_true_iff _).2 (by omega)
        have hc0 : c ∉ h0.clients := by
          intro x
          have := ((hmem c).1 x).2
          rw [hfull] at this
          cases this
        have hch : h0.send c = { h.send c with closed := true } := by
          rw [hsend c, if_pos hc, Chan.offer_of_full _ _ hfull]
        obtain ⟨h2, h3⟩ := hout hc0
        refine ⟨?_, ?_, ?_⟩
        · rw [h3, hch]
          have : (h.send c).cap - (h.send c).buf.length = 0 := by omega
          rw [this]
          simp
        · rw [List.length_cons]
          constructor
          · intro x
            exact absurd x h2
          · intro x
            omega
        · rw [h3, hch, List.length_cons]
          simp only [true_iff]
          omega

end Hub

/-! ## JSON string literals -/

theorem hexVal_hexDigit : ∀ k < 16, hexVal (hexDigit k) = some k := by
  decide

theorem getu4_low (n : Nat) (hn : n < 128) (rest : List Char) :
    getu4 ('\\' :: 'u' :: '0' :: '0' :: hexDigit (n / 16) :: hexDigit (n % 16) :: rest) =
      some n := by
  have h1 := hexVal_hexDigit (n / 16) (by omega)
  have h2 := hexVal_hexDigit (n % 16) (Nat.mod_lt _ (by decide))
  have h0 : hexVal '0' = some 0 := by decide
  simp only [getu4, and_self, if_true, h0, h1, h2]
  congr 1
  omega

theorem getu4_separator (k : Nat) (hk : k < 16) (rest : List Char) :
    getu4 ('\\' :: 'u' :: '2' :: '0' :: '2' :: hexDigit k :: rest) = some (0x2020 + k) := by
  have h2 : hexVal '2' = some 2 := by decide
  have h0 : hexVal '0' = some 0 := by decide
  simp only [getu4, and_self, if_true, h0, h2, hexVal_hexDigit k hk]

theorem escapeChar_length_pos (c : Char) : 1 ≤ (escapeChar c).length := by
  unfold escapeChar
  split_ifs <;> simp

theorem escapeRune_length_pos (r : GoRune) : 1 ≤ (escapeRune r).length := by
  cases r with
  | char c => exact escapeChar_length_pos c
  | bad b => simp [escapeRune]

theorem length_le_escaped (s : GoString) : s.length ≤ (s.map escapeRune).flatten.length := by
  induction s with
  | nil => simp
  | cons r s ih =>
    have := escapeRune_length_pos r
    simp only [List.map_cons, List.flatten_cons, List.length_append, List.length_cons]
    omega

theorem readStringAux_closing (fuel : Nat) (tail acc : List Char) :
    readStringAux (fuel + 1) ('"' :: tail) acc = some (acc, tail) := by
  simp [readStringAux]

theorem readStringAux_simple (e d : Char) (hd : unescape e = some d) (he : e ≠ 'u')
    (fuel : Nat) (tail acc : List Char) :
    readStringAux (fuel + 1) ('\\' :: e :: tail) acc = readStringAux fuel tail (acc ++ [d]) := by
  have h1 : ('\\' : Char) ≠ '"' := by decide
  simp [readStringAux, h1, he, hd]

theorem readStringAux_u (x1 x2 x3 x4 : Char) (rr : Nat) (fuel : Nat) (tail acc : List Char)
    (hg : getu4 ('\\' :: 'u' :: x1 :: x2 :: x3 :: x4 :: tail) = some rr)
    (hs : ¬ (0xd800 ≤ rr ∧ rr < 0xe000)) :
    readStringAux (fuel + 1) ('\\' :: 'u' :: x1 :: x2 :: x3 :: x4 :: tail) acc =
      readStringAux fuel tail (acc ++ [Char.ofNat rr]) := by
  have h1 : ('\\' : Char) ≠ '"' := by decide
  simp only [readStringAux, h1, if_false, if_true, hg, hs, List.drop_succ_cons, List.drop_zero]

theorem readStringAux_literal (c : Char) (h1 : c ≠ '"') (h2 : c ≠ '\\') (h3 : ¬ c.toNat < 32)
    (fuel : Nat) (tail acc : List Char) :
    readStringAux (fuel + 1) (c :: tail) acc = readStringAux fuel tail (acc ++ [c]) := by
  simp [readStringAux, h1, h2, h3]

/-- Reading back what the encoder wrote for one rune yields that rune. -/
theorem readStringAux_escapeChar (c : Char) (fuel : Nat) (tail acc : List Char) :
    readStringAux (fuel + 1) (escapeChar c ++ tail) acc =
      readStringAux fuel tail (acc ++ [c]) := by
  unfold escapeChar
  split_ifs with h1 h2 h3 h4 h5 h6 h7 h8 h9
  · subst h1
    exact readStringAux_simple _ _ (by decide) (by decide) fuel tail acc
  · subst h2
    exact readStringAux_simple _ _ (by decide) (by decide) fuel tail acc
  · subst h3
    exact readStringAux_simple _ _ (by decide) (by decide) fuel tail acc
  · subst h4
    exact readStringAux_simple _ _ (by decide) (by decide) fuel tail acc
  · subst h5
    exact readStringAux_simple _ _ (by decide) (by decide) fuel tail acc
  · subst h6
    exact readStringAux_simple _ _ (by decide) (by decide) fuel tail acc
  · subst h7
    exact readStringAux_simple _ _ (by decide) (by decide) fuel tail acc
  · have hlt : c.toNat < 128 := by
      rcases h8 with h | rfl | rfl | rfl
      · omega
      · decide
      · decide
      · decide
    have := readStringAux_u _ _ _ _ c.toNat fuel tail acc
      (getu4_low c.toNat hlt tail) (by omega)
    rw [Char.ofNat_toNat] at this
    exact this
  · have hk : c.toNat % 16 < 16 := Nat.mod_lt _ (by decide)
    have hv : 0x2020 + c.toNat % 16 = c.toNat := by omega
    have := readStringAux_u _ _ _ _ (0x2020 + c.toNat % 16) fuel tail acc
      (getu4_separator (c.toNat % 16) hk tail) (by omega)
    rw [hv, Char.ofNat_toNat] at this
    exact this
  · have h32 : ¬ c.toNat < 32 := fun h => h8 (Or.inl h)
    exact readStringAux_literal c h1 h2 h32 fuel tail acc

/-- Reading back the body of a string literal written for a valid UTF-8 text, up to the
closing quote. -/
theorem readStringAux_escaped (s : List Char) (fuel : Nat) (tail acc : List Char)
    (hf : s.length ≤ fuel) :
    readStringAux (fuel + 1)
        (((GoString.ofChars s).map escapeRune).flatten ++ '"' :: tail) acc =
      some (acc ++ s, tail) := by
  induction s generalizing fuel acc with
  | nil =>
    simp only [GoString.ofChars, List.map_nil, List.flatten_nil, List.nil_append,
      List.append_nil]
    exact readStringAux_closing fuel tail acc
  | cons c s ih =>
    obtain ⟨f, rfl⟩ : ∃ f, fuel = f + 1 := ⟨fuel - 1, by simp at hf; omega⟩
    simp only [GoString.ofChars, List.map_cons, List.flatten_cons, escapeRune,
      List.append_assoc]
    rw [readStringAux_escapeChar]
    have := ih f (acc ++ [c]) (by simp at hf; omega)
    simp only [GoString.ofChars, List.append_assoc, List.singleton_append] at this
    exact this

/-- Reading back a whole string literal written for a valid UTF-8 text. -/
theorem readString_quote (s tail : List Char) :
    expect ['"'] (quote (GoString.ofChars s) ++ tail) =
        some (((GoString.ofChars s).map escapeRune).flatten ++ '"' :: tail) ∧
    readString (((GoString.ofChars s).map escapeRune).flatten ++ '"' :: tail) =
      some (s, tail) := by
  constructor
  · simp [expect, quote]
  · unfold readString
    have hlen := length_le_escaped (GoString.ofChars s)
    have hs : (GoString.ofChars s).length = s.length := by simp [GoString.ofChars]
    obtain ⟨f, hf⟩ : ∃ f, (((GoString.ofChars s).map escapeRune).flatten ++
        '"' :: tail).length = f + 1 := ⟨_, by simp; rfl⟩
    rw [hf]
    have hle : s.length ≤ f := by
      simp only [List.length_append, List.length_cons] at hf
      omega
    have := readStringAux_escaped s f tail [] hle
    simpa using this

/-! ## The scanner -/

theorem facts_error (b : Bool) (s : Scanner) (c : Char) (ctx : String) :
    StepFacts b c (s.error c ctx) := by
  simp [StepFacts, Scanner.error, Scanner.Inv]

theorem facts_endTop (b : Bool) (ps : List ParseState) (c : Char) :
    StepFacts b c (stateEndTop ⟨.endTop, true, ps, none⟩ c) := by
  unfold stateEndTop
  split_ifs with h
  · simp [StepFacts, Scanner.Inv, Scanner.outside, h]
  · simp [StepFacts, Scanner.Inv, Scanner.outside, Scanner.error, h]

theorem facts_pop (b : Bool) (st : ScanStep) (ps : List ParseState) (c : Char)
    (hc : isSpace c = false) :
    StepFacts b c ((⟨st, false, ps, none⟩ : Scanner).popParseState, .keep) := by
  unfold Scanner.popParseState
  split <;> simp [StepFacts, Scanner.Inv, hc]

theorem facts_endValue (b : Bool) (st : ScanStep) (ps : List ParseState) (c : Char) :
    StepFacts b c (stateEndValue ⟨st, false, ps, none⟩ c) := by
  unfold stateEndValue
  cases ps with
  | nil => exact facts_endTop b [] c
  | cons p rest =>
    simp only
    by_cases hsp : isSpace c = true
    · simp [StepFacts, Scanner.Inv, Scanner.outside, hsp]
    · have hc : isSpace c = false := by simpa using hsp
      simp only [hc, Bool.false_eq_true, if_false]
      cases p <;> simp only <;> split_ifs <;>
        first
        | contradiction
        | exact facts_error b _ c _
        | exact facts_pop b st _ c hc
        | simp [StepFacts, Scanner.Inv, hc]

theorem facts_push (b : Bool) (st : ScanStep) (hst : st = .beginStringOrEmpty ∨ st = .beginValueOrEmpty)
    (ps : List ParseState) (p : ParseState) (c : Char) (hc : isSpace c = false) :
    StepFacts b c (Scanner.pushParseState ⟨st, false, ps, none⟩ c p) := by
  unfold Scanner.pushParseState
  split_ifs
  · rcases hst with rfl | rfl <;> simp [StepFacts, Scanner.Inv, hc]
  · exact facts_error b _ c _

theorem facts_beginValue (b : Bool) (st : ScanStep)
    (hst : st = .beginValue ∨ st = .beginValueOrEmpty) (ps : List ParseState) (c : Char) :
    StepFacts b c (stateBeginValue ⟨st, false, ps, none⟩ c) := by
  unfold stateBeginValue
  by_cases hsp : isSpace c = true
  · rcases hst with rfl | rfl <;> simp [StepFacts, Scanner.Inv, Scanner.outside, hsp]
  · have hc : isSpace c = false := by simpa using hsp
    simp only [hc, Bool.false_eq_true, if_false]
    split_ifs <;>
      first
      | contradiction
      | exact facts_error b _ c _
      | exact facts_push b _ (Or.inl rfl) ps _ c hc
      | exact facts_push b _ (Or.inr rfl) ps _ c hc
      | simp [StepFacts, Scanner.Inv, hc]

theorem facts_beginValueOrEmpty (b : Bool) (ps : List ParseState) (c : Char) :
    StepFacts b c (stateBeginValueOrEmpty ⟨.beginValueOrEmpty, false, ps, none⟩ c) := by
  unfold stateBeginValueOrEmpty
  split_ifs with h1 h2
  · simp [StepFacts, Scanner.Inv, Scanner.outside, h1]
  · exact facts_endValue b _ ps c
  · exact facts_beginValue b _ (Or.inr rfl) ps c

theorem facts_beginString (b : Bool) (st : ScanStep)
    (hst : st = .beginString ∨ st = .beginStringOrEmpty) (ps : List ParseState) (c : Char) :
    StepFacts b c (stateBeginString ⟨st, false, ps, none⟩ c) := by
  unfold stateBeginString
  by_cases hsp : isSpace c = true
  · rcases hst with rfl | rfl <;> simp [StepFacts, Scanner.Inv, Scanner.outside, hsp]
  · have hc : isSpace c = false := by simpa using hsp
    simp only [hc, Bool.false_eq_true, if_false]
    split_ifs <;>
      first
      | contradiction
      | exact facts_error b _ c _
      | simp [StepFacts, Scanner.Inv, hc]

theorem facts_beginStringOrEmpty (b : Bool) (ps : List ParseState) (c : Char) :
    StepFacts b c (stateBeginStringOrEmpty ⟨.beginStringOrEmpty, false, ps, none⟩ c) := by
  unfold stateBeginStringOrEmpty
  split_ifs with h1 h2
  · simp [StepFacts, Scanner.Inv, Scanner.outside, h1]
  · exact facts_endValue b _ _ c
  · exact facts_beginString b _ (Or.inr rfl) ps c

theorem facts_inString (ps : List ParseState) (c : Char) :
    StepFacts false c (stateInString ⟨.inString, false, ps, none⟩ c) := by
  unfold stateInString
  split_ifs <;>
    first
    | exact facts_error false _ c _
    | simp [StepFacts, Scanner.Inv]

theorem facts_inStringEsc (st : ScanStep) (ps : List ParseState) (c : Char) :
    StepFacts false c (stateInStringEsc ⟨st, false, ps, none⟩ c) := by
  unfold stateInStringEsc
  split_ifs <;>
    first
    | exact facts_error false _ c _
    | simp [StepFacts, Scanner.Inv]

theorem facts_hex (next : ScanStep) (hn : next ≠ .error ∧ next ≠ .endTop) (st : ScanStep)
    (ps : List ParseState) (c : Char) :
    StepFacts false c (stateHex next ⟨st, false, ps, none⟩ c) := by
  unfold stateHex
  split_ifs
  · cases next <;> simp_all [StepFacts, Scanner.Inv]
  · exact facts_error false _ c _

theorem facts_letter (e : Char) (next : ScanStep) (hn : next ≠ .error ∧ next ≠ .endTop)
    (ctx : String) (st : ScanStep) (ps : List ParseState) (c : Char) :
    StepFacts false c (stateLetter e next ctx ⟨st, false, ps, none⟩ c) := by
  unfold stateLetter
  split_ifs
  · cases next <;> simp_all [StepFacts, Scanner.Inv]
  · exact facts_error false _ c _

theorem facts_state0 (st : ScanStep) (ps : List ParseState) (c : Char) :
    StepFacts false c (state0 ⟨st, false, ps, none⟩ c) := by
  unfold state0
  split_ifs <;>
    first
    | exact facts_endValue false _ ps c
    | simp [StepFacts, Scanner.Inv]

theorem facts_state1 (st : ScanStep) (ps : List ParseState) (c : Char) :
    StepFacts false c (state1 ⟨st, false, ps, none⟩ c) := by
  unfold state1
  split_ifs <;>
    first
    | exact facts_state0 _ ps c
    | simp [StepFacts, Scanner.Inv]

theorem facts_neg (st : ScanStep) (ps : List ParseState) (c : Char) :
    StepFacts false c (stateNeg ⟨st, false, ps, none⟩ c) := by
  unfold stateNeg
  split_ifs <;>
    first
    | exact facts_error false _ c _
    | simp [StepFacts, Scanner.Inv]

theorem facts_dot (st : ScanStep) (ps : List ParseState) (c : Char) :
    StepFacts false c (stateDot ⟨st, false, ps, none⟩ c) := by
  unfold stateDot
  split_ifs <;>
    first
    | exact facts_error false _ c _
    | simp [StepFacts, Scanner.Inv]

theorem facts_dot0 (ps : List ParseState) (c : Char) :
    StepFacts false c (stateDot0 ⟨.dot0, false, ps, none⟩ c) := by
  unfold stateDot0
  split_ifs <;>
    first
    | exact facts_endValue false _ ps c
    | simp [StepFacts, Scanner.Inv]

theorem facts_eSign (st : ScanStep) (ps : List ParseState) (c : Char) :
    StepFacts false c (stateESign ⟨st, false, ps, none⟩ c) := by
  unfold stateESign
  split_ifs <;>
    first
    | exact facts_error false _ c _
    | simp [StepFacts, Scanner.Inv]

theorem facts_e (st : ScanStep) (ps : List ParseState) (c : Char) :
    StepFacts false c (stateE ⟨st, false, ps, none⟩ c) := by
  unfold stateE
  split_ifs <;>
    first
    | exact facts_eSign _ ps c
    | simp [StepFacts, Scanner.Inv]

theorem facts_e0 (ps : List ParseState) (c : Char) :
    StepFacts false c (stateE0 ⟨.e0, false, ps, none⟩ c) := by
  unfold stateE0
  split_ifs <;>
    first
    | exact facts_endValue false _ ps c
    | simp [StepFacts, Scanner.Inv]

/-- One step of the scanner from a state that satisfies the invariant. -/
theorem apply_facts (s : Scanner) (c : Char) (h : s.Inv) :
    StepFacts s.outside c (s.apply c) := by
  obtain ⟨step, endTop, ps, err⟩ := s
  cases step <;> simp only [Scanner.Inv] at h <;> (try obtain ⟨rfl, rfl⟩ := h) <;>
    simp only [Scanner.apply, Scanner.outside]
  · exact facts_beginValueOrEmpty _ ps c
  · exact facts_beginValue _ _ (Or.inl rfl) ps c
  · exact facts_beginStringOrEmpty _ ps c
  · exact facts_beginString _ _ (Or.inl rfl) ps c
  · exact facts_endValue _ _ ps c
  · exact facts_endTop _ ps c
  · exact facts_inString ps c
  · exact facts_inStringEsc _ ps c
  · exact facts_hex _ (by simp) _ ps c
  · exact facts_hex _ (by simp) _ ps c
  · exact facts_hex _ (by simp) _ ps c
  · exact facts_hex _ (by simp) _ ps c
  · exact facts_neg _ ps c
  · exact facts_state1 _ ps c
  · exact facts_state0 _ ps c
  · exact facts_dot _ ps c
  · exact facts_dot0 ps c
  · exact facts_e _ ps c
  · exact facts_eSign _ ps c
  · exact facts_e0 ps c
  · exact facts_letter _ _ (by simp) _ _ ps c
  · exact facts_letter _ _ (by simp) _ _ ps c
  · exact facts_letter _ _ (by simp) _ _ ps c
  · exact facts_letter _ _ (by simp) _ _ ps c
  · exact facts_letter _ _ (by simp) _ _ ps c
  · exact facts_letter _ _ (by simp) _ _ ps c
  · exact facts_letter _ _ (by simp) _ _ ps c
  · exact facts_letter _ _ (by simp) _ _ ps c
  · exact facts_letter _ _ (by simp) _ _ ps c
  · exact facts_letter _ _ (by simp) _ _ ps c
  · simp [StepFacts, Scanner.Inv, h]

theorem reset_inv : Scanner.reset.Inv := by
  simp [Scanner.reset, Scanner.Inv]

/-- The compaction loop only appends to its destination. -/
theorem compactLoop_dst (s : Scanner) (dst src : List Char) :
    compactLoop s dst src = ((compactLoop s [] src).1, dst ++ (compactLoop s [] src).2) := by
  induction src generalizing s dst with
  | nil => simp [compactLoop]
  | cons c src ih =>
    unfold compactLoop
    cases hv : (s.apply c).2 <;> simp only [List.nil_append]
    · rw [ih _ (dst ++ _), ih _ ((htmlEscape c).getD [c])]
      simp
    · rw [ih _ (dst ++ _), ih _ ((htmlEscape c).getD [])]
      simp
    · rw [ih _ (dst ++ _), ih _ ((htmlEscape c).getD [])]
      simp

theorem htmlEscape_head (c : Char) (e : List Char) (h : htmlEscape c = some e) :
    ∃ t, e = '\\' :: t := by
  unfold htmlEscape at h
  split_ifs at h <;> simp at h <;> exact ⟨_, h.symm⟩

theorem htmlEscape_backslash : htmlEscape '\\' = none := by
  decide

/-- Once in the error state the compaction pass ends with an error. -/
theorem compactLoop_error (s : Scanner) (dst src : List Char) (hi : s.Inv)
    (he : s.step = .error) : (compactLoop s dst src).1.err ≠ none := by
  obtain ⟨step, endTop, ps, err⟩ := s
  simp only at he
  subst he
  cases src with
  | nil => simpa [compactLoop, Scanner.Inv] using hi
  | cons c src => simpa [compactLoop, Scanner.apply, Scanner.Inv] using hi

/-- From a state outside the literals the first character the compaction pass writes is
not white space. -/
theorem compactLoop_head (s : Scanner) (src : List Char) (hi : s.Inv) (ho : s.outside = true)
    (x : Char) (out : List Char) (h : (compactLoop s [] src).2 = x :: out) :
    isSpace x = false := by
  induction src generalizing s with
  | nil => simp [compactLoop] at h
  | cons c src ih =>
    obtain ⟨hinv, -, hskip, hstop, hkeep⟩ := apply_facts s c hi
    unfold compactLoop at h
    cases hesc : htmlEscape c with
    | some e =>
      obtain ⟨t, rfl⟩ := htmlEscape_head c e hesc
      cases hv : (s.apply c).2 <;> rw [hv] at h <;> simp only [List.nil_append] at h
      all_goals (try rw [compactLoop_dst] at h)
      all_goals simp only [hesc, Option.getD_some, List.cons_append, List.cons.injEq] at h
      all_goals (rw [← h.1]; decide)
    | none =>
      cases hv : (s.apply c).2 <;> rw [hv] at h <;> simp only [List.nil_append] at h
      · rw [compactLoop_dst] at h
        simp only [hesc, Option.getD_none, List.cons_append, List.nil_append,
          List.cons.injEq] at h
        rw [← h.1]
        exact hkeep hv ho
      · simp only [hesc, Option.getD_none] at h
        exact ih _ hinv (hskip hv).2 h
      · simp only [hesc, Option.getD_none] at h
        exact ih _ hinv (hstop hv).1 h
      · simp [hesc] at h

/-- A text that the compaction pass accepts and returns as it is: every character was
kept and none was escaped. -/
theorem compactLoop_keeps (s : Scanner) (src : List Char) (hi : s.Inv)
    (herr : (compactLoop s [] src).1.err = none) (hout : (compactLoop s [] src).2 = src) :
    s.Keeps src := by
  induction src generalizing s with
  | nil => trivial
  | cons c src ih =>
    obtain ⟨hinv, hfail, hskip, hstop, hkeep⟩ := apply_facts s c hi
    unfold compactLoop at herr hout
    have hnone : htmlEscape c = none := by
      cases hesc : htmlEscape c with
      | none => rfl
      | some e =>
        exfalso
        obtain ⟨t, rfl⟩ := htmlEscape_head c e hesc
        have hc : c = '\\' := by
          cases hv : (s.apply c).2 <;> rw [hv] at hout <;> simp only [List.nil_append] at hout
          all_goals (try rw [compactLoop_dst] at hout)
          all_goals simp only [hesc, Option.getD_some, List.cons_append, List.cons.injEq] at hout
          all_goals exact hout.1.symm
        rw [hc, htmlEscape_backslash] at hesc
        cases hesc
    cases hv : (s.apply c).2 <;> rw [hv] at herr hout <;>
      simp only [List.nil_append, hnone, Option.getD_none] at herr hout
    · rw [compactLoop_dst] at herr hout
      simp only [List.cons_append, List.nil_append, List.cons.injEq, true_and] at hout
      exact ⟨hv, hnone, ih _ hinv herr hout⟩
    · exfalso
      have := compactLoop_head _ src hinv (hskip hv).2 c src hout
      rw [(hskip hv).1] at this
      cases this
    · exfalso
      have hsp := compactLoop_head _ src hinv (hstop hv).1 c src hout
      exact compactLoop_error _ [] src hinv ((hstop hv).2 hsp) herr
    · exfalso
      have := hfail hv
      have hi2 : (s.apply c).1.err ≠ none := by
        have := compactLoop_error (s.apply c).1 [] [] hinv this
        simpa [compactLoop] using this
      exact hi2 herr

theorem endValue_space (st : ScanStep) (ps : List ParseState)
    (h : (stateEndValue ⟨st, false, ps, none⟩ ' ').1.endTop = true) : ps = [] := by
  cases ps with
  | nil => rfl
  | cons p rest => simp [stateEndValue, isSpace] at h

theorem endValue_brace (st : ScanStep) :
    (stateEndValue ⟨st, false, [], none⟩ (Char.ofNat 0x7d)).2 = .stop := by
  simp [stateEndValue, stateEndTop, isSpace, Scanner.error]

/-- A scanner that accepts the end of the input, but has not seen the end of the value
yet, reports the end of the value at a closing brace. -/
theorem apply_brace_stop (s : Scanner) (hi : s.Inv) (he : s.endTop = false)
    (h : (s.apply ' ').1.endTop = true) : (s.apply (Char.ofNat 0x7d)).2 = .stop := by
  obtain ⟨step, endTop, ps, err⟩ := s
  simp only at he
  subst he
  have hd1 : isDigit ' ' = false := by decide
  have hd2 : isDigit (Char.ofNat 0x7d) = false := by decide
  have hd3 : isDigit19 ' ' = false := by decide
  have hx : isHex ' ' = false := by decide
  have hs : isSpace ' ' = true := by decide
  cases step <;> simp only [Scanner.Inv] at hi
  case endValue =>
    obtain ⟨-, rfl⟩ := hi
    simp only [Scanner.apply] at h ⊢
    rw [endValue_space _ ps h]
    exact endValue_brace _
  case one =>
    obtain ⟨-, rfl⟩ := hi
    simp only [Scanner.apply, state1, state0, hd1, hd2, Bool.false_eq_true, if_false] at h ⊢
    simp only [show ¬ (' ' = '.') by decide, show ¬ (' ' = 'e' ∨ ' ' = 'E') by decide,
      show ¬ (Char.ofNat 0x7d = '.') by decide,
      show ¬ (Char.ofNat 0x7d = 'e' ∨ Char.ofNat 0x7d = 'E') by decide, if_false] at h ⊢
    rw [endValue_space _ ps h]
    exact endValue_brace _
  case zero =>
    obtain ⟨-, rfl⟩ := hi
    simp only [Scanner.apply, state0] at h ⊢
    simp only [show ¬ (' ' = '.') by decide, show ¬ (' ' = 'e' ∨ ' ' = 'E') by decide,
      show ¬ (Char.ofNat 0x7d = '.') by decide,
      show ¬ (Char.ofNat 0x7d = 'e' ∨ Char.ofNat 0x7d = 'E') by decide, if_false] at h ⊢
    rw [endValue_space _ ps h]
    exact endValue_brace _
  case dot0 =>
    obtain ⟨-, rfl⟩ := hi
    simp only [Scanner.apply, stateDot0, hd1, hd2, Bool.false_eq_true, if_false] at h ⊢
    simp only [show ¬ (' ' = 'e' ∨ ' ' = 'E') by decide,
      show ¬ (Char.ofNat 0x7d = 'e' ∨ Char.ofNat 0x7d = 'E') by decide, if_false] at h ⊢
    rw [endValue_space _ ps h]
    exact endValue_brace _
  case e0 =>
    obtain ⟨-, rfl⟩ := hi
    simp only [Scanner.apply, stateE0, hd1, hd2, Bool.false_eq_true, if_false] at h ⊢
    rw [endValue_space _ ps h]
    exact endValue_brace _
  case error => simp [Scanner.apply] at h
  case endTop => simp at hi
  all_goals
    obtain ⟨-, rfl⟩ := hi
    simp [Scanner.apply, stateBeginValueOrEmpty, stateBeginValue, stateBeginStringOrEmpty,
      stateBeginString, stateInString, stateInStringEsc, stateHex, stateNeg, stateDot, stateE,
      stateESign, stateLetter, Scanner.error, hd1, hd3, hx, hs] at h

/-- After the end of the top-level value no character is kept. -/
theorem apply_after_end (s : Scanner) (c : Char) (hi : s.Inv) (he : s.endTop = true) :
    (s.apply c).2 ≠ .keep := by
  obtain ⟨step, endTop, ps, err⟩ := s
  simp only at he
  subst he
  cases step <;> simp only [Scanner.Inv] at hi
  case endTop =>
    simp only [Scanner.apply, stateEndTop]
    split_ifs <;> simp
  case error => simp [Scanner.apply]
  all_goals simp at hi

theorem eof_none (s : Scanner) (h : s.eof = none) :
    s.err = none ∧ (s.endTop = true ∨ (s.apply ' ').1.endTop = true) := by
  unfold Scanner.eof at h
  cases he : s.err with
  | some e => rw [he] at h; cases h
  | none =>
    rw [he] at h
    simp only at h
    refine ⟨rfl, ?_⟩
    by_cases h1 : s.endTop = true
    · exact Or.inl h1
    · by_cases h2 : (s.apply ' ').1.endTop = true
      · exact Or.inr h2
      · exfalso
        rw [if_neg h1, if_neg h2] at h
        cases h3 : (s.apply ' ').1.err with
        | none => rw [h3] at h; cases h
        | some e => rw [h3] at h; cases h

/-- The value scanner reads a text that the compaction pass keeps as it is up to the
closing brace that follows it. -/
theorem scanValueLoop_keeps (s : Scanner) (p : List Char) (value rest : List Char)
    (hi : s.Inv) (he : s.endTop = false) (hk : s.Keeps p)
    (hend : (compactLoop s [] p).1.eof = none) :
    scanValueLoop s value (p ++ Char.ofNat 0x7d :: rest) =
      some (value ++ p, Char.ofNat 0x7d :: rest) := by
  induction p generalizing s value with
  | nil =>
    simp only [compactLoop] at hend
    obtain ⟨-, h2⟩ := eof_none s hend
    have h3 : (s.apply ' ').1.endTop = true := by
      rcases h2 with h2 | h2
      · rw [he] at h2; cases h2
      · exact h2
    have hstop := apply_brace_stop s hi he h3
    simp [scanValueLoop, hstop]
  | cons c p ih =>
    obtain ⟨hkeep, -, hk1⟩ := hk
    obtain ⟨hinv, -⟩ := apply_facts s c hi
    have hend1 : (compactLoop (s.apply c).1 [] p).1.eof = none := by
      unfold compactLoop at hend
      rw [hkeep] at hend
      simp only at hend
      rw [compactLoop_dst] at hend
      exact hend
    rw [List.cons_append, scanValueLoop]
    simp only [hkeep]
    by_cases het : (s.apply c).1.endTop = true
    · cases p with
      | nil => simp [het]
      | cons c1 p1 =>
        exact absurd hk1.1 (apply_after_end _ c1 hinv het)
    · have het1 : (s.apply c).1.endTop = false := by simpa using het
      simp only [het1, Bool.false_eq_true, if_false]
      rw [ih _ _ hinv het1 hk1 hend1]
      simp

/-- The value scanner on a text that the compaction pass accepts and returns as it is,
followed by a closing brace. -/
theorem scanValue_compact (p rest : List Char) (hp : compact p = .ok p) :
    scanValue (p ++ Char.ofNat 0x7d :: rest) = some (p, Char.ofNat 0x7d :: rest) := by
  unfold compact at hp
  cases hend : (compactLoop Scanner.reset [] p).1.eof with
  | some e => rw [hend] at hp; cases hp
  | none =>
    rw [hend] at hp
    simp only [Except.ok.injEq] at hp
    have hk := compactLoop_keeps Scanner.reset p reset_inv (eof_none _ hend).1 hp
    have := scanValueLoop_keeps Scanner.reset p [] rest reset_inv rfl hk hend
    simpa [scanValue] using this

/-! ### Nesting beyond the depth the scanner accepts -/

theorem apply_open_bracket (st : ScanStep) (hst : st = .beginValue ∨ st = .beginValueOrEmpty)
    (ps : List ParseState) (hps : ps.length < maxNestingDepth) :
    (⟨st, false, ps, none⟩ : Scanner).apply '[' =
      (⟨.beginValueOrEmpty, false, .arrayValue :: ps, none⟩, .keep) := by
  have h1 : isSpace '[' = false := by decide
  have h2 : ps.length + 1 ≤ maxNestingDepth := by omega
  rcases hst with rfl | rfl <;>
    simp [Scanner.apply, stateBeginValueOrEmpty, stateBeginValue, Scanner.pushParseState, h1, h2]

theorem apply_open_bracket_deep (st : ScanStep)
    (hst : st = .beginValue ∨ st = .beginValueOrEmpty)
    (ps : List ParseState) (hps : ps.length = maxNestingDepth) :
    ((⟨st, false, ps, none⟩ : Scanner).apply '[').2 = .fail ∧
    ((⟨st, false, ps, none⟩ : Scanner).apply '[').1.err =
      some (.invalidCharacter '[' "exceeded max depth") := by
  have h1 : isSpace '[' = false := by decide
  have h2 : ¬ ps.length + 1 ≤ maxNestingDepth := by omega
  rcases hst with rfl | rfl <;>
    simp [Scanner.apply, stateBeginValueOrEmpty, stateBeginValue, Scanner.pushParseState,
      Scanner.error, h1, h2]

theorem compactLoop_brackets (n : Nat) (st : ScanStep)
    (hst : st = .beginValue ∨ st = .beginValueOrEmpty) (ps : List ParseState)
    (hps : ps.length + n = maxNestingDepth) (dst rest : List Char) :
    (compactLoop ⟨st, false, ps, none⟩ dst (List.replicate n '[' ++ '[' :: rest)).1.err =
      some (.invalidCharacter '[' "exceeded max depth") := by
  induction n generalizing st ps dst with
  | zero =>
    obtain ⟨h1, h2⟩ := apply_open_bracket_deep st hst ps (by omega)
    simp only [List.replicate_zero, List.nil_append]
    unfold compactLoop
    rw [h1]
    exact h2
  | succ n ih =>
    have h1 := apply_open_bracket st hst ps (by omega)
    simp only [List.replicate_succ, List.cons_append]
    unfold compactLoop
    rw [h1]
    exact ih _ (Or.inr rfl) _ (by simp only [List.length_cons]; omega) _

/-- The compaction pass rejects a text that opens more arrays than the scanner accepts. -/
theorem compact_deep (rest : List Char) :
    compact (List.replicate maxNestingDepth '[' ++ '[' :: rest) =
      .error (.invalidCharacter '[' "exceeded max depth") := by
  have h := compactLoop_brackets maxNestingDepth .beginValue (Or.inl rfl) [] (by simp) [] rest
  unfold compact
  have h2 : (compactLoop Scanner.reset [] (List.replicate maxNestingDepth '[' ++ '[' :: rest)).1.eof
      = some (.invalidCharacter '[' "exceeded max depth") := by
    unfold Scanner.eof
    rw [show Scanner.reset = ⟨.beginValue, false, [], none⟩ from rfl, h]
  rw [h2]


/-! ## The envelope -/

theorem expect_append (p s : List Char) : expect p (p ++ s) = some s := by
  simp [expect]

theorem skipSpace_cons (c : Char) (s : List Char) (hc : isSpace c = false) :
    skipSpace (c :: s) = c :: s := by
  simp [skipSpace, hc]

theorem marshalMessage_ok (m : Message) (raw : List Char) (hc : compact m.payload = .ok raw) :
    marshalMessage m = .ok ("\x7b\"type\":".toList ++ quote m.type ++
      ",\"payload\":".toList ++ raw ++ "\x7d".toList) := by
  simp [marshalMessage, hc]

theorem marshalMessage_error (m : Message) (e : SyntaxError)
    (hc : compact m.payload = .error e) : marshalMessage m = .error e := by
  simp [marshalMessage, hc]

theorem NewTaskMessage_ok {α ε : Type} (J : Encoding α ε) (t : MessageType) (payload : α)
    (p : List Char) (hp : J.Marshal payload = .ok p) :
    NewTaskMessage J t payload = .ok { type := t, payload := p } := by
  simp [NewTaskMessage, hp]

theorem NewTaskMessage_error {α ε : Type} (J : Encoding α ε) (t : MessageType) (payload : α)
    (e : ε) (hp : J.Marshal payload = .error e) :
    NewTaskMessage J t payload = .error e := by
  simp [NewTaskMessage, hp]

theorem BroadcastTaskUpdate_ok {α ε : Type} (J : Encoding α ε)
    (t : MessageType) (payload : α) (p raw : List Char) (hp : J.Marshal payload = .ok p)
    (hc : compact p = .ok raw) :
    Hub.BroadcastTaskUpdate J t payload =
      (none, [.broadcast ("\x7b\"type\":".toList ++ quote t ++ ",\"payload\":".toList ++ raw ++
        "\x7d".toList)]) := by
  have hm := marshalMessage_ok { type := t, payload := p } raw hc
  simp only [Hub.BroadcastTaskUpdate, NewTaskMessage_ok J t payload p hp, hm]

theorem BroadcastTaskUpdate_error {α ε : Type} (J : Encoding α ε)
    (t : MessageType) (payload : α) (e : ε) (hp : J.Marshal payload = .error e) :
    Hub.BroadcastTaskUpdate J t payload = (some (.payload e), []) := by
  simp only [Hub.BroadcastTaskUpdate, NewTaskMessage_error J t payload e hp]

theorem BroadcastTaskUpdate_rejected {α ε : Type} (J : Encoding α ε)
    (t : MessageType) (payload : α) (p : List Char) (e : SyntaxError)
    (hp : J.Marshal payload = .ok p) (hc : compact p = .error e) :
    Hub.BroadcastTaskUpdate J t payload = (some (.marshaler e), []) := by
  have hm := marshalMessage_error { type := t, payload := p } e hc
  simp only [Hub.BroadcastTaskUpdate, NewTaskMessage_ok J t payload p hp, hm]

/-- Decoding an envelope written for a tag that is valid UTF-8 and a payload that the
compaction pass returns as it is. -/
theorem decodeEnvelope_encoded (t p : List Char) (hp : compact p = .ok p) :
    decodeEnvelope ("\x7b\"type\":".toList ++ quote (GoString.ofChars t) ++
      ",\"payload\":".toList ++ p ++ "\x7d".toList) =
      some { type := GoString.ofChars t, payload := p } := by
  have e1 : "\x7b\"type\":".toList ++ quote (GoString.ofChars t) ++
      ",\"payload\":".toList ++ p ++ "\x7d".toList =
      Char.ofNat 0x7b :: ("\"type\"".toList ++ (':' :: ('"' ::
        (((GoString.ofChars t).map escapeRune).flatten ++
          '"' :: (',' :: ("\"payload\"".toList ++ (':' :: (p ++ [Char.ofNat 0x7d])))))))) := by
    have k1 : "\x7b\"type\":".toList = Char.ofNat 0x7b :: ("\"type\"".toList ++ [':']) := rfl
    have k2 : ",\"payload\":".toList = ',' :: ("\"payload\"".toList ++ [':']) := rfl
    have k3 : "\x7d".toList = [Char.ofNat 0x7d] := rfl
    rw [k1, k2, k3]
    simp only [quote, List.append_assoc, List.cons_append, List.nil_append]
  have q1 : ∀ s : List Char, skipSpace ("\"type\"".toList ++ s) = "\"type\"".toList ++ s :=
    fun s => skipSpace_cons '"' _ (by decide)
  have q2 : ∀ s : List Char,
      skipSpace ("\"payload\"".toList ++ s) = "\"payload\"".toList ++ s :=
    fun s => skipSpace_cons '"' _ (by decide)
  have x1 : ∀ (c : Char) (s : List Char), expect [c] (c :: s) = some s :=
    fun c s => expect_append [c] s
  rw [e1]
  unfold decodeEnvelope
  rw [skipSpace_cons _ _ (by decide), x1, Option.some_bind, q1, expect_append,
    Option.some_bind, skipSpace_cons _ _ (by decide), x1, Option.some_bind,
    skipSpace_cons _ _ (by decide), x1, Option.some_bind, (readString_quote t _).2,
    Option.some_bind]
  simp only
  rw [skipSpace_cons _ _ (by decide), x1, Option.some_bind, q2, expect_append,
    Option.some_bind, skipSpace_cons _ _ (by decide), x1, Option.some_bind,
    scanValue_compact p [] hp, Option.some_bind]
  simp only
  rw [skipSpace_cons _ _ (by decide), x1, Option.some_bind]
  simp [skipSpace]

/-- The text of a slice nested beyond the depth the scanner accepts is rejected by the
compaction pass. -/
theorem compact_nested :
    compact (List.replicate (maxNestingDepth + 1) '[' ++
        List.replicate (maxNestingDepth + 1) ']') =
      .error (.invalidCharacter '[' "exceeded max depth") := by
  rw [List.replicate_succ' maxNestingDepth '[', List.append_assoc, List.singleton_append]
  exact compact_deep _

namespace Hub

/-- The scenario of two clients: both registered, a first broadcast, the first client
unregistered, a second broadcast. -/
theorem Run_two_clients {μ : Type} (send0 : Nat → Chan μ) (A B : Nat) (hAB : A ≠ B)
    (hempty : ∀ c, (send0 c).buf = [] ∧ (send0 c).closed = false)
    (hA : 1 ≤ (send0 A).cap) (hB : 2 ≤ (send0 B).cap) (f1 f2 : μ) (hf : f2 ≠ f1) :
    ∃ h, (NewHub send0).Run
        [.register A, .register B, .broadcast f1, .unregister A, .broadcast f2] = .ok h ∧
      (h.send A).buf = [f1] ∧ (h.send B).buf = [f1, f2] ∧
      (∀ c, f2 ∈ (h.send c).buf ↔ c = B) ∧ h.GetClientCount = 1 := by
  obtain ⟨hreg, hrR, hs0, hm0⟩ := Run_registers (NewHub send0) [A, B]
  have hsR : hreg.send = send0 := hs0
  have hmR : ∀ c, c ∈ hreg.clients ↔ c = A ∨ c = B := by
    intro c
    rw [hm0 c]
    simp [NewHub]
  have hoR : hreg.Open := fun c _ => by rw [hsR]; exact (hempty c).2
  -- first broadcast
  obtain ⟨h1, hs1⟩ := (step_broadcast_ok_iff hreg f1).2 hoR
  have ho1 : h1.Open := step_open hreg h1 _ hoR hs1 (fun _ e => by cases e)
  obtain ⟨hsend1, hmem1⟩ := step_broadcast_spec hreg h1 f1 hs1
  have hroomA : (hreg.send A).full = false := by
    rw [hsR, Chan.full_eq_false_iff, (hempty A).1]
    exact hA
  have hroomB : (hreg.send B).full = false := by
    rw [hsR, Chan.full_eq_false_iff, (hempty B).1]
    exact Nat.lt_of_lt_of_le Nat.zero_lt_two hB
  have hA1 : h1.send A = { send0 A with buf := [f1] } := by
    rw [hsend1 A, if_pos ((hmR A).2 (Or.inl rfl)), Chan.offer_of_room _ _ hroomA, hsR,
      (hempty A).1]
    rfl
  have hB1 : h1.send B = { send0 B with buf := [f1] } := by
    rw [hsend1 B, if_pos ((hmR B).2 (Or.inr rfl)), Chan.offer_of_room _ _ hroomB, hsR,
      (hempty B).1]
    rfl
  have hO1 : ∀ c, c ≠ A → c ≠ B → h1.send c = send0 c := by
    intro c hcA hcB
    have : c ∉ hreg.clients := fun x => by
      rcases (hmR c).1 x with e | e
      · exact hcA e
      · exact hcB e
    rw [hsend1 c, if_neg this, hsR]
  have hmA1 : A ∈ h1.clients := (hmem1 A).2 ⟨(hmR A).2 (Or.inl rfl), hroomA⟩
  have hmB1 : B ∈ h1.clients := (hmem1 B).2 ⟨(hmR B).2 (Or.inr rfl), hroomB⟩
  -- unregister A
  have hs2 := step_unregister_open h1 A hmA1 (ho1 A hmA1)
  obtain ⟨hmem2, hsend2, hself2, -⟩ := step_unregister_spec h1 _ A hs2
  have ho2 := step_open h1 _ _ ho1 hs2 (fun _ e => by cases e)
  generalize (⟨h1.clients.erase A, h1.nodup.erase A,
    setSend h1.send A { h1.send A with closed := true }⟩ : Hub μ) = h2 at hs2 hmem2 hsend2 hself2 ho2
  have hm2 : ∀ c, c ∈ h2.clients ↔ c = B := by
    intro c
    rw [hmem2 c, hmem1 c, hmR c]
    constructor
    · rintro ⟨⟨hc | hc, -⟩, hne⟩
      · exact absurd hc hne
      · exact hc
    · rintro rfl
      exact ⟨⟨Or.inr rfl, hroomB⟩, fun e => hAB e.symm⟩
  -- second broadcast
  obtain ⟨h3, hs3⟩ := (step_broadcast_ok_iff h2 f2).2 ho2
  obtain ⟨hsend3, hmem3⟩ := step_broadcast_spec h2 h3 f2 hs3
  have hB2 : h2.send B = { send0 B with buf := [f1] } := by
    rw [hsend2 B (fun e => hAB e.symm), hB1]
  have hroomB2 : (h2.send B).full = false := by
    rw [hB2, Chan.full_eq_false_iff]
    exact hB
  have hA3 : (h3.send A).buf = [f1] := by
    have : A ∉ h2.clients := fun x => hAB ((hm2 A).1 x)
    rw [hsend3 A, if_neg this, (hself2 hmA1).2, hA1]
  have hB3 : (h3.send B).buf = [f1, f2] := by
    rw [hsend3 B, if_pos ((hm2 B).2 rfl), Chan.offer_of_room _ _ hroomB2, hB2]
    rfl
  have hO3 : ∀ c, c ≠ A → c ≠ B → (h3.send c).buf = [] := by
    intro c hcA hcB
    have : c ∉ h2.clients := fun x => hcB ((hm2 c).1 x)
    rw [hsend3 c, if_neg this, hsend2 c hcA, hO1 c hcA hcB]
    exact (hempty c).1
  refine ⟨h3, ?_, hA3, hB3, ?_, ?_⟩
  · have hsplit : [Request.register A, Request.register B, Request.broadcast f1,
        Request.unregister A, Request.broadcast f2] =
        ([A, B].map Request.register) ++ [Request.broadcast f1, Request.unregister A,
          Request.broadcast f2] := rfl
    rw [hsplit, Run_append_ok _ hreg _ _ hrR, Run_cons_ok hreg h1 _ _ hs1,
      Run_cons_ok h1 h2 _ _ hs2, Run_single]
    exact hs3
  · intro c
    by_cases hcB : c = B
    · subst hcB
      rw [hB3]
      simp
    · by_cases hcA : c = A
      · subst hcA
        rw [hA3]
        simp [hf, hcB]
      · rw [hO3 c hcA hcB]
        simp [hcB]
  · have : ∀ c, c ∈ h3.clients ↔ c ∈ [B] := by
      intro c
      rw [hmem3 c, hm2 c, List.mem_singleton]
      constructor
      · exact fun x => x.1
      · rintro rfl
        exact ⟨rfl, hroomB2⟩
    exact length_eq_of_mem_iff h3.nodup (List.nodup_singleton B) this

end Hub

namespace Hub

variable {μ : Type}

/-! ## The iteration order of the broadcast loop is immaterial -/

/-- The only panic of a delivery is the send on a closed channel. -/
theorem deliver_error (m : μ) (h : Hub μ) (c : Nat) (p : Panic)
    (hd : deliver m h c = .error p) : p = .sendOnClosed := by
  cases hc : (h.send c).closed
  · obtain ⟨h1, hd1, -⟩ := deliver_open m h c hc
    rw [hd1] at hd
    cases hd
  · rw [deliver_closed m h c hc] at hd
    cases hd
    rfl

theorem foldlM_deliver_error (m : μ) (keys : List Nat) (h : Hub μ) (p : Panic)
    (hf : keys.foldlM (deliver m) h = .error p) : p = .sendOnClosed := by
  induction keys generalizing h with
  | nil => cases hf
  | cons k ks ih =>
    rw [List.foldlM_cons] at hf
    cases hd : deliver m h k with
    | error q =>
      rw [hd] at hf
      cases hf
      exact deliver_error m h k _ hd
    | ok h0 =>
      rw [hd] at hf
      exact ih h0 hf

/-- A broadcast to a state in which some registered client has a closed channel panics
with a send on a closed channel, whatever the order of the loop. -/
theorem step_broadcast_panics (h : Hub μ) (m : μ) (hn : ¬ h.Open) :
    h.step (.broadcast m) = .error .sendOnClosed := by
  cases hs : h.step (.broadcast m) with
  | ok h1 => exact absurd ((step_broadcast_ok_iff h m).1 ⟨h1, hs⟩) hn
  | error p =>
    have : p = .sendOnClosed := foldlM_deliver_error m h.clients h p hs
    rw [this]

/-- Two states with the same registered clients, listed in any two orders, and the same
channels: a broadcast returns from both or from neither, and leaves the same channels and
the same registered clients. -/
theorem step_broadcast_order (h k : Hub μ) (m : μ) (hc : ∀ c, c ∈ h.clients ↔ c ∈ k.clients)
    (hs : h.send = k.send) (h1 : Hub μ) (hb : h.step (.broadcast m) = .ok h1) :
    ∃ k1, k.step (.broadcast m) = .ok k1 ∧ k1.send = h1.send ∧
      ∀ c, c ∈ k1.clients ↔ c ∈ h1.clients := by
  have ho : h.Open := (step_broadcast_ok_iff h m).1 ⟨h1, hb⟩
  have hk : k.Open := fun c hc1 => by
    rw [← hs]
    exact ho c ((hc c).2 hc1)
  obtain ⟨k1, hkb⟩ := (step_broadcast_ok_iff k m).2 hk
  obtain ⟨hsend, hmem⟩ := step_broadcast_spec h h1 m hb
  obtain ⟨ksend, kmem⟩ := step_broadcast_spec k k1 m hkb
  refine ⟨k1, hkb, ?_, ?_⟩
  · funext c
    rw [ksend c, hsend c, hs]
    simp only [hc c]
  · intro c
    rw [kmem c, hmem c, hs, hc c]

end Hub
/-! # The claims -/

namespace Hub

variable {μ : Type}

/-! ## C1: a broadcast evicts the clients whose mailbox is full -/

/-- C1 as stated fails: after `Register(1)`, one broadcast (which fills the mailbox of
capacity 1), `Unregister(1)` and `Register(1)` again, client 1 is registered with a full
mailbox, yet the next broadcast does not remove it: the send on the closed channel panics. -/
theorem broadcast_full_closed_panics :
    ∃ h : Hub Nat,
      (NewHub (fresh 1)).Run [.register 1, .broadcast 0, .unregister 1, .register 1] = .ok h ∧
      1 ∈ h.clients ∧ (h.send 1).full = true ∧
      h.step (.broadcast 9) = .error .sendOnClosed ∧
      ¬ ∃ h1, h.step (.broadcast 9) = .ok h1 ∧ 1 ∉ h1.clients := by
  refine ⟨_, rfl, by decide, rfl, rfl, ?_⟩
  rintro ⟨h1, hs, -⟩
  cases hs

/-- C1 (amended): in every hub state whose registered clients all have an open mailbox, and
for every message, processing one Broadcast request returns, and every registered client
whose mailbox is full at that moment has its mailbox closed, is removed from the registry,
and keeps its queued frames unchanged (the message is not added). -/
theorem broadcast_evicts_full (h : Hub μ) (m : μ) (ho : h.Open) :
    ∃ h1, h.step (.broadcast m) = .ok h1 ∧
      ∀ c ∈ h.clients, (h.send c).full = true →
        c ∉ h1.clients ∧ (h1.send c).closed = true ∧ (h1.send c).buf = (h.send c).buf := by
  obtain ⟨h1, hs⟩ := (step_broadcast_ok_iff h m).2 ho
  obtain ⟨hsend, hmem⟩ := step_broadcast_spec h h1 m hs
  refine ⟨h1, hs, ?_⟩
  intro c hc hfull
  refine ⟨?_, ?_, ?_⟩
  · intro hc1
    have := ((hmem c).1 hc1).2
    rw [hfull] at this
    cases this
  · rw [hsend c, if_pos hc, Chan.offer_of_full _ _ hfull]
  · rw [hsend c, if_pos hc, Chan.offer_of_full _ _ hfull]

theorem crowded_open : crowded.Open := by
  intro c hc
  simp only [crowded, List.mem_cons, List.mem_singleton, List.not_mem_nil, or_false] at hc
  rcases hc with rfl | rfl <;> rfl

/-- C1, an instance: a broadcast to `crowded` evicts client 1, whose mailbox is full. -/
theorem broadcast_evicts_full_witness :
    crowded.Open ∧ ∃ h1, crowded.step (.broadcast 9) = .ok h1 ∧
      ∀ c ∈ crowded.clients, (crowded.send c).full = true →
        c ∉ h1.clients ∧ (h1.send c).closed = true ∧ (h1.send c).buf = (crowded.send c).buf :=
  ⟨crowded_open, broadcast_evicts_full crowded 9 crowded_open⟩

/-! ## C2: a broadcast reaches the clients whose mailbox has room -/

/-- C2 as stated fails: after `Register(1)`, `Unregister(1)` and `Register(1)` again, client
1 is registered and its mailbox is not full, yet the next broadcast appends nothing to it:
the send on the closed channel panics. -/
theorem broadcast_room_closed_panics :
    ∃ h : Hub Nat,
      (NewHub (fresh 1)).Run [.register 1, .unregister 1, .register 1] = .ok h ∧
      1 ∈ h.clients ∧ (h.send 1).full = false ∧
      h.step (.broadcast 9) = .error .sendOnClosed ∧
      ¬ ∃ h1, h.step (.broadcast 9) = .ok h1 ∧ (h1.send 1).buf = (h.send 1).buf ++ [9] := by
  refine ⟨_, rfl, by decide, rfl, rfl, ?_⟩
  rintro ⟨h1, hs, -⟩
  cases hs

/-- C2 (amended): in every hub state whose registered clients all have an open mailbox, and
for every message, processing one Broadcast request returns, and every registered client
whose mailbox is not full gets exactly one copy of the message at the tail of its mailbox
and stays registered, whatever happens to the other clients.  In particular, after the
clients of a list `cs`, with empty open mailboxes of capacity at least 1, are registered
with a new hub in the order of the list, one broadcast leaves exactly that one frame in
the mailbox of each of them. -/
theorem broadcast_delivers (h : Hub μ) (m : μ) (ho : h.Open)
    (send0 : Nat → Chan μ) (cs : List Nat)
    (hcs : ∀ c ∈ cs, (send0 c).buf = [] ∧ (send0 c).closed = false ∧ 1 ≤ (send0 c).cap) :
    (∃ h1, h.step (.broadcast m) = .ok h1 ∧
      ∀ c ∈ h.clients, (h.send c).full = false →
        c ∈ h1.clients ∧ (h1.send c).buf = (h.send c).buf ++ [m] ∧
        (h1.send c).closed = false) ∧
    (∃ h2, (NewHub send0).Run (cs.map .register ++ [.broadcast m]) = .ok h2 ∧
      ∀ c ∈ cs, (h2.send c).buf = [m] ∧ c ∈ h2.clients) := by
  constructor
  · obtain ⟨h1, hs⟩ := (step_broadcast_ok_iff h m).2 ho
    obtain ⟨hsend, hmem⟩ := step_broadcast_spec h h1 m hs
    refine ⟨h1, hs, ?_⟩
    intro c hc hroom
    refine ⟨(hmem c).2 ⟨hc, hroom⟩, ?_, ?_⟩
    · rw [hsend c, if_pos hc, Chan.offer_of_room _ _ hroom]
    · rw [hsend c, if_pos hc, Chan.offer_of_room _ _ hroom]
      exact ho c hc
  · obtain ⟨hreg, hr, hs0, hm⟩ := Run_registers (NewHub send0) cs
    have hs : hreg.send = send0 := hs0
    have hmem : ∀ c, c ∈ hreg.clients ↔ c ∈ cs := by
      intro c
      rw [hm c]
      simp [NewHub]
    have hopen : hreg.Open := by
      intro c hc
      rw [hs]
      exact (hcs c ((hmem c).1 hc)).2.1
    obtain ⟨h2, hb⟩ := (step_broadcast_ok_iff hreg m).2 hopen
    obtain ⟨hsend, hmem2⟩ := step_broadcast_spec hreg h2 m hb
    refine ⟨h2, ?_, ?_⟩
    · rw [Run_append_ok _ hreg _ _ hr, Run_single]
      exact hb
    · intro c hc
      obtain ⟨hbuf, -, hcap⟩ := hcs c hc
      have hroom : (hreg.send c).full = false := by
        rw [hs, Chan.full_eq_false_iff, hbuf]
        exact hcap
      refine ⟨?_, (hmem2 c).2 ⟨(hmem c).2 hc, hroom⟩⟩
      rw [hsend c, if_pos ((hmem c).2 hc), Chan.offer_of_room _ _ hroom, hs, hbuf]
      rfl

/-- C2, an instance: a broadcast to `crowded` reaches client 2 while client 1 is evicted,
and three fresh clients registered in the order 3, 1, 2 each hold the one frame. -/
theorem broadcast_delivers_witness :
    crowded.Open ∧
    (∀ c ∈ [3, 1, 2], ((fresh 4) c).buf = [] ∧ ((fresh 4) c).closed = false ∧
      1 ≤ ((fresh 4) c).cap) ∧
    (∃ h1, crowded.step (.broadcast 9) = .ok h1 ∧
      ∀ c ∈ crowded.clients, (crowded.send c).full = false →
        c ∈ h1.clients ∧ (h1.send c).buf = (crowded.send c).buf ++ [9] ∧
        (h1.send c).closed = false) ∧
    (∃ h2, (NewHub (fresh 4)).Run ([3, 1, 2].map .register ++ [.broadcast 9]) = .ok h2 ∧
      ∀ c ∈ [3, 1, 2], (h2.send c).buf = [9] ∧ c ∈ h2.clients) :=
  ⟨crowded_open, fun _ _ => ⟨rfl, rfl, by simp [fresh, Chan.make]⟩,
    broadcast_delivers crowded 9 crowded_open (fresh 4) [3, 1, 2]
      (fun _ _ => ⟨rfl, rfl, by simp [fresh, Chan.make]⟩)⟩

/-! ## C3: unregister -/

/-- C3 as stated fails: after `Register(1)`, `Unregister(1)` and `Register(1)` again, client
1 is in the registry, yet `Unregister(1)` does not return a state with the client removed:
closing the closed channel panics. -/
theorem unregister_closed_panics :
    ∃ h : Hub Nat,
      (NewHub (fresh 1)).Run [.register 1, .unregister 1, .register 1] = .ok h ∧
      1 ∈ h.clients ∧
      h.step (.unregister 1) = .error .closeOfClosed ∧
      ¬ ∃ h1, h.step (.unregister 1) = .ok h1 ∧ 1 ∉ h1.clients := by
  refine ⟨_, rfl, by decide, rfl, ?_⟩
  rintro ⟨h1, hs, -⟩
  cases hs

/-- C3 (amended): for every hub state and every client `c`, when the hub processes
`Unregister(c)`: if `c` is in the registry and its mailbox is open, the request returns, `c`
is removed, its mailbox is closed (with its queue as it was), and every other client's
membership and mailbox are unchanged; if `c` is not in the registry, the whole state is
unchanged, so a later broadcast does exactly what it would have done without the request. -/
theorem unregister_effect (h : Hub μ) (c : Nat) :
    (c ∈ h.clients → (h.send c).closed = false →
      ∃ h1, h.step (.unregister c) = .ok h1 ∧
        c ∉ h1.clients ∧ (h1.send c).closed = true ∧ (h1.send c).buf = (h.send c).buf ∧
        ∀ d, d ≠ c → (d ∈ h1.clients ↔ d ∈ h.clients) ∧ h1.send d = h.send d) ∧
    (c ∉ h.clients →
      h.step (.unregister c) = .ok h ∧
      ∀ m, h.Run [.unregister c, .broadcast m] = h.Run [.broadcast m]) := by
  constructor
  · intro hc ho
    have hs := step_unregister_open h c hc ho
    obtain ⟨hmem, hsend, hself, -⟩ := step_unregister_spec h _ c hs
    refine ⟨_, hs, ?_, ?_, ?_, ?_⟩
    · intro hc1
      exact ((hmem c).1 hc1).2 rfl
    · rw [(hself hc).2]
    · rw [(hself hc).2]
    · intro d hd
      refine ⟨?_, hsend d hd⟩
      rw [hmem d]
      exact ⟨fun x => x.1, fun x => ⟨x, hd⟩⟩
  · intro hc
    have hs := step_unregister_absent h c hc
    exact ⟨hs, fun m => Run_cons_ok h h _ _ hs⟩

/-- C3, an instance: unregistering client 1 of `crowded`, and unregistering client 7, which
is not registered. -/
theorem unregister_effect_witness :
    (∃ h1, crowded.step (.unregister 1) = .ok h1 ∧
        1 ∉ h1.clients ∧ (h1.send 1).closed = true ∧ (h1.send 1).buf = (crowded.send 1).buf ∧
        ∀ d, d ≠ 1 → (d ∈ h1.clients ↔ d ∈ crowded.clients) ∧ h1.send d = crowded.send d) ∧
    (crowded.step (.unregister 7) = .ok crowded ∧
      ∀ m, crowded.Run [.unregister 7, .broadcast m] = crowded.Run [.broadcast m]) :=
  ⟨(unregister_effect crowded 1).1 (by decide) rfl,
    (unregister_effect crowded 7).2 (by decide)⟩

/-! ## C4: the client count after register and unregister requests -/

/-- C4 as stated fails.  After `Register(1), Unregister(2)` one distinct client was
registered and one was unregistered, yet the count is 1.  After
`Register(1), Unregister(1), Register(1)` the same numbers are 1 and 1, and the count is 1.
And `Register(1), Unregister(1), Register(1), Unregister(1)` leaves no count at all: the
second unregister closes a closed channel. -/
theorem count_formula_fails :
    (∃ h : Hub Nat, (NewHub (fresh 1)).Run [.register 1, .unregister 2] = .ok h ∧
      h.GetClientCount = 1 ∧
      (registered ([.register 1, .unregister 2] : List (Request Nat))).dedup.length = 1 ∧
      (unregistered ([.register 1, .unregister 2] : List (Request Nat))).dedup.length = 1) ∧
    (∃ h : Hub Nat,
      (NewHub (fresh 1)).Run [.register 1, .unregister 1, .register 1] = .ok h ∧
      h.GetClientCount = 1 ∧
      (registered ([.register 1, .unregister 1, .register 1] :
        List (Request Nat))).dedup.length = 1 ∧
      (unregistered ([.register 1, .unregister 1, .register 1] :
        List (Request Nat))).dedup.length = 1) ∧
    (NewHub (fresh 1)).Run [.register 1, .unregister 1, .register 1, .unregister 1] =
      .error .closeOfClosed :=
  ⟨⟨_, rfl, rfl, by decide, by decide⟩, ⟨_, rfl, rfl, by decide, by decide⟩, rfl⟩

/-- C4 (amended): for every finite sequence of Register and Unregister requests in which no
Register(c) comes after an Unregister(c), processed from a new hub while all mailboxes are
open, the run returns and `GetClientCount` afterwards equals the number of distinct clients
that were registered minus the number of those clients that were unregistered; the
subtrahend never exceeds the minuend, and a client registered twice is counted once. -/
theorem count_after_requests (send0 : Nat → Chan μ) (hopen : ∀ c, (send0 c).closed = false)
    (reqs : List (Request μ)) (hreq : ∀ r ∈ reqs, ∀ m, r ≠ .broadcast m)
    (hdisc : ∀ pre post c, reqs = pre ++ .register c :: post → Request.unregister c ∉ pre) :
    ∃ h, (NewHub send0).Run reqs = .ok h ∧
      h.GetClientCount = (registered reqs).dedup.length -
        ((registered reqs).dedup.filter (fun c => decide (c ∈ unregistered reqs))).length ∧
      ((registered reqs).dedup.filter (fun c => decide (c ∈ unregistered reqs))).length ≤
        (registered reqs).dedup.length := by
  obtain ⟨h, hr, hmem, -⟩ := Run_register_unregister send0 hopen reqs hreq hdisc
  refine ⟨h, hr, ?_, List.length_filter_le _ _⟩
  have hlen : h.clients.length =
      ((registered reqs).dedup.filter (fun c => !decide (c ∈ unregistered reqs))).length := by
    apply length_eq_of_mem_iff h.nodup ((List.nodup_dedup _).filter _)
    intro a
    rw [hmem a]
    simp
  have hsplit := @List.length_eq_length_filter_add _ (registered reqs).dedup
    (fun c => decide (c ∈ unregistered reqs))
  unfold GetClientCount
  omega

/-- C4, an instance: `Register(1), Register(2), Register(1), Unregister(1), Unregister(3)`. -/
theorem count_after_requests_witness :
    ∃ h : Hub Nat, (NewHub (fresh 1)).Run
        [.register 1, .register 2, .register 1, .unregister 1, .unregister 3] = .ok h ∧
      h.GetClientCount = 2 - 1 :=
  have hw := count_after_requests (fresh 1) (fun _ => rfl)
    [.register 1, .register 2, .register 1, .unregister 1, .unregister 3]
    (by simp)
    (no_register_after_unregister _ (by simp))
  hw.imp (fun _ hh => ⟨hh.1, hh.2.1⟩)

/-! ## C5: who is in the registry -/

/-- C5 as stated fails: with a mailbox of capacity 1, after `Register(1)` and two broadcasts
client 1 is not in the registry (the second broadcast found its mailbox full and evicted
it), although `Register(1)` is not followed by any `Unregister(1)`.  The same happens with
a mailbox of capacity 256 after 257 broadcasts. -/
theorem evicted_without_unregister :
    (∃ h : Hub Nat,
      (NewHub (fresh 1)).Run [.register 1, .broadcast 7, .broadcast 8] = .ok h ∧
      1 ∉ h.clients ∧
      ∃ pre post, [Request.register 1, Request.broadcast 7, Request.broadcast 8] =
        pre ++ Request.register 1 :: post ∧ Request.unregister 1 ∉ post) ∧
    (∃ h : Hub Nat,
      (NewHub (fresh 256)).Run (.register 1 :: (List.replicate 257 7).map .broadcast) = .ok h ∧
      1 ∉ h.clients ∧
      ∃ pre post, Request.register 1 :: (List.replicate 257 7).map Request.broadcast =
        pre ++ Request.register 1 :: post ∧ Request.unregister 1 ∉ post) := by
  refine ⟨⟨_, rfl, by decide, [], [.broadcast 7, .broadcast 8], rfl, by simp⟩, ?_⟩
  have hs0 := step_register (NewHub (fresh 256)) 1
  have hoR : (⟨(NewHub (fresh 256)).clients.insert 1, (NewHub (fresh 256)).nodup.insert,
      (NewHub (fresh 256)).send⟩ : Hub Nat).Open :=
    step_open _ _ _ (NewHub_open _) hs0 (fun d _ => rfl)
  obtain ⟨h, hr, -, -, hin⟩ := Run_broadcasts _ hoR (List.replicate 257 7) 1
  obtain ⟨-, hm, -⟩ := hin (by decide) (by decide)
  refine ⟨h, ?_, ?_, [], _, rfl, ?_⟩
  · rw [Run_cons_ok _ _ _ _ hs0]
    exact hr
  · intro hc
    have := hm.1 hc
    rw [List.length_replicate] at this
    exact absurd this (by decide)
  · intro hmem
    obtain ⟨x, -, hx⟩ := List.mem_map.1 hmem
    cases hx

/-- C5 (amended): for every finite sequence of Register, Unregister and Broadcast requests
that the hub processes to the end starting from a new hub, and every client `c`: `c` is in
the registry afterwards if and only if the sequence contains a Register(c) request that is
followed neither by a later Unregister(c) request nor by a later Broadcast request that is
processed while the mailbox of `c` is full. -/
theorem registered_iff (send0 : Nat → Chan μ) (reqs : List (Request μ)) (h : Hub μ)
    (hrun : (NewHub send0).Run reqs = .ok h) (c : Nat) :
    c ∈ h.clients ↔
      ∃ pre post, reqs = pre ++ .register c :: post ∧ Request.unregister c ∉ post ∧
        ∀ p1 m p2 hm, post = p1 ++ .broadcast m :: p2 →
          (NewHub send0).Run (pre ++ .register c :: p1) = .ok hm → (hm.send c).full = false := by
  rw [mem_Run (NewHub send0) h reqs hrun c]
  have hsplit : ∀ (pre p1 : List (Request μ)),
      pre ++ .register c :: p1 = (pre ++ [.register c]) ++ p1 := by
    intro pre p1
    simp
  constructor
  · rintro (⟨hc, -⟩ | ⟨pre, post, hm1, he, hr1, hu, hb⟩)
    · cases hc
    · refine ⟨pre, post, he, hu, ?_⟩
      intro p1 m p2 hm hp hr
      rw [hsplit, Run_append_ok _ hm1 _ _ hr1] at hr
      exact hb p1 m p2 hm hp hr
  · rintro ⟨pre, post, he, hu, hb⟩
    have hrun2 := hrun
    rw [he, hsplit] at hrun2
    obtain ⟨hm1, hr1, -⟩ := Run_append_inv _ h _ _ hrun2
    refine Or.inr ⟨pre, post, hm1, he, hr1, hu, ?_⟩
    intro p1 m p2 hm hp hr
    apply hb p1 m p2 hm hp
    rw [hsplit, Run_append_ok _ hm1 _ _ hr1]
    exact hr

/-- C5, an instance: the run `Register(1), Broadcast, Register(2), Unregister(1)`. -/
theorem registered_iff_witness :
    ∃ h : Hub Nat,
      (NewHub (fresh 1)).Run [.register 1, .broadcast 7, .register 2, .unregister 1] = .ok h ∧
      (2 ∈ h.clients ↔
        ∃ pre post, [Request.register 1, Request.broadcast 7, Request.register 2,
            Request.unregister 1] = pre ++ Request.register 2 :: post ∧
          Request.unregister 2 ∉ post ∧
          ∀ p1 m p2 hm, post = p1 ++ Request.broadcast m :: p2 →
            (NewHub (fresh 1)).Run (pre ++ Request.register 2 :: p1) = .ok hm →
            (hm.send 2).full = false) :=
  ⟨_, rfl, registered_iff (fresh 1)
    [.register 1, .broadcast 7, .register 2, .unregister 1] _ rfl 2⟩

/-! ## C6: no mailbox is closed twice -/

/-- C6 as stated fails: `Register(1), Unregister(1), Register(1), Unregister(1)` from a new
hub with open mailboxes makes the hub close the mailbox of client 1 a second time. -/
theorem double_close :
    (NewHub (fresh 1)).Run [.register 1, .unregister 1, .register 1, .unregister 1] =
      .error .closeOfClosed := rfl

/-- C6 (amended): for every finite sequence of Register, Unregister and Broadcast requests
processed from a new hub, in which no Register request names a client whose mailbox is
closed when the request is processed (as is the mailbox of a client that was unregistered
or evicted before), every request returns and the hub never closes a closed channel: no
mailbox is closed more than once. -/
theorem no_double_close (send0 : Nat → Chan μ) (reqs : List (Request μ))
    (hdisc : ∀ pre c post hm, reqs = pre ++ .register c :: post →
      (NewHub send0).Run pre = .ok hm → (hm.send c).closed = false) :
    (∃ h, (NewHub send0).Run reqs = .ok h) ∧
    ∀ pre r post, reqs = pre ++ r :: post →
      ∃ hm hm1, (NewHub send0).Run pre = .ok hm ∧ hm.step r = .ok hm1 := by
  obtain ⟨h, hr, -⟩ := Run_ok_of_open (NewHub send0) (NewHub_open send0) reqs hdisc
  refine ⟨⟨h, hr⟩, ?_⟩
  intro pre r post he
  rw [he] at hr
  obtain ⟨hm, hr1, hr2⟩ := Run_append_inv _ h _ _ hr
  obtain ⟨hm1, hs, -⟩ := Run_cons_inv hm h r post hr2
  exact ⟨hm, hm1, hr1, hs⟩

/-- C6, an instance: client 1 is evicted by the second broadcast, the unregister request
that follows finds it gone, and client 2 is registered afterwards. -/
theorem no_double_close_witness :
    (∃ h : Hub Nat, (NewHub (fresh 1)).Run
      [.register 1, .broadcast 7, .broadcast 8, .unregister 1, .register 2] = .ok h) ∧
    ∀ pre r post, [Request.register 1, Request.broadcast 7, Request.broadcast 8,
        Request.unregister 1, Request.register 2] = pre ++ r :: post →
      ∃ hm hm1, (NewHub (fresh 1)).Run pre = .ok hm ∧ hm.step r = .ok hm1 :=
  no_double_close (fresh 1) _ (registersOpen_sound _ _ rfl)

/-! ## C7: what one client receives between its registration and its removal -/

/-- C7: a client with an empty open mailbox is registered (with a hub whose registered clients
have open mailboxes), `msgs` are broadcast, the client is unregistered, and nothing is
dequeued.  Then the run returns, the client's mailbox is closed, the client is out of the
registry, and the mailbox holds the first `cap` broadcasts in submission order: the frames
enqueued before it was closed, all of `msgs` when their number does not exceed the
capacity.  Broadcasts processed afterwards add no frame to it. -/
theorem frames_before_close (h : Hub μ) (ho : h.Open) (c : Nat)
    (hbuf : (h.send c).buf = []) (hcl : (h.send c).closed = false) (msgs later : List μ) :
    ∃ h1, h.Run (.register c :: (msgs.map .broadcast ++ [.unregister c])) = .ok h1 ∧
      (h1.send c).buf = msgs.take (h.send c).cap ∧
      (msgs.length ≤ (h.send c).cap → (h1.send c).buf = msgs) ∧
      (h1.send c).closed = true ∧ c ∉ h1.clients ∧
      ∃ h2, h1.Run (later.map .broadcast) = .ok h2 ∧ (h2.send c).buf = (h1.send c).buf := by
  -- the register request
  have hs0 := step_register h c
  have hoR : (⟨h.clients.insert c, h.nodup.insert, h.send⟩ : Hub μ).Open :=
    step_open h _ _ ho hs0 (fun d e => by cases e; exact hcl)
  -- the broadcasts
  obtain ⟨hB, hrB, hoB, -, hin⟩ := Run_broadcasts _ hoR msgs c
  have hcR : c ∈ (⟨h.clients.insert c, h.nodup.insert, h.send⟩ : Hub μ).clients :=
    List.mem_insert_self c h.clients
  obtain ⟨hb, hmB, hclB⟩ := hin hcR (by simp [hbuf])
  simp only [hbuf, List.length_nil, Nat.sub_zero, List.nil_append, Nat.zero_add] at hb hmB hclB
  -- the unregister request
  obtain ⟨h1, hsU⟩ := step_ok_of_open hB (.unregister c) hoB
  have ho1 : h1.Open := step_open hB h1 _ hoB hsU (fun _ e => by cases e)
  obtain ⟨hmU, -, hselfU, habsU⟩ := step_unregister_spec hB h1 c hsU
  have hc1 : c ∉ h1.clients := fun x => ((hmU c).1 x).2 rfl
  have hbuf1 : (h1.send c).buf = msgs.take (h.send c).cap := by
    by_cases hc : c ∈ hB.clients
    · rw [(hselfU hc).2]
      exact hb
    · rw [habsU hc]
      exact hb
  have hcl1 : (h1.send c).closed = true := by
    by_cases hc : c ∈ hB.clients
    · rw [(hselfU hc).2]
    · rw [habsU hc, hclB]
      by_contra hn
      exact hc (hmB.2 (by omega))
  -- the broadcasts that follow
  obtain ⟨h2, hr2, -, hout2, -⟩ := Run_broadcasts h1 ho1 later c
  refine ⟨h1, ?_, hbuf1, ?_, hcl1, hc1, h2, hr2, by rw [(hout2 hc1).2]⟩
  · rw [Run_cons_ok h _ _ _ hs0, Run_append_ok _ hB _ _ hrB, Run_single]
    exact hsU
  · intro hle
    rw [hbuf1, List.take_of_length_le hle]

/-- C7, an instance: client 3 with a mailbox of capacity 2 joins `crowded`; of the
broadcasts 10, 11, 12 it holds 10 and 11, and the broadcasts 13, 14 sent after it was
unregistered do not reach it. -/
theorem frames_before_close_witness :
    ∃ h1, crowded.Run (.register 3 :: (([10, 11, 12] : List Nat).map .broadcast ++
        [.unregister 3])) = .ok h1 ∧
      (h1.send 3).buf = ([10, 11, 12] : List Nat).take (crowded.send 3).cap ∧
      (([10, 11, 12] : List Nat).length ≤ (crowded.send 3).cap →
        (h1.send 3).buf = [10, 11, 12]) ∧
      (h1.send 3).closed = true ∧ 3 ∉ h1.clients ∧
      ∃ h2, h1.Run (([13, 14] : List Nat).map .broadcast) = .ok h2 ∧
        (h2.send 3).buf = (h1.send 3).buf :=
  frames_before_close crowded crowded_open 3 rfl rfl [10, 11, 12] [13, 14]

end Hub

namespace Hub

/-! ## C8: the frame that is broadcast -/

/-- C8 as stated fails for a payload nested deeper than the scanner of `encoding/json`
accepts: an empty slice wrapped in 10000 further slices is serialized by `json.Marshal`,
yet `BroadcastTaskUpdate` submits no frame: the encoding of the envelope rejects the
serialized payload, and that error is returned. -/
theorem deep_payload_no_frame :
    ∃ p, taskEncoding.Marshal (Payload.nested maxNestingDepth) = .ok p ∧
      BroadcastTaskUpdate taskEncoding MessageTypeTaskCreated (Payload.nested maxNestingDepth) =
        (some (.marshaler (.invalidCharacter '[' "exceeded max depth")), []) :=
  ⟨_, rfl, BroadcastTaskUpdate_rejected _ _ _ _ _ rfl compact_nested⟩

/-- C8 (amended): when the serialization of the payload is a JSON text `p` that the
encoding of the envelope accepts and leaves as it is (`compact p` is `p`: compact valid
JSON, nested no deeper than the scanner accepts), `BroadcastTaskUpdate` returns no error
and submits exactly the bytes `{"type":<t quoted>,"payload":<p>}`, the field `type` first,
`payload` second, nothing else.  For the type `task_created` and a payload that serializes
to `{"id":"42"}` the frame is `{"type":"task_created","payload":{"id":"42"}}`.  And after
clients `A` and `B`, with empty open mailboxes of capacity at least 1 and 2, are registered
with a new hub, that broadcast, `Unregister(A)` and the `task_deleted` broadcast are
processed, the mailbox of `B` is the only one that holds the second frame and
`GetClientCount` is 1. -/
theorem broadcast_frame {α ε : Type} (J : Encoding α ε)
    (t : MessageType) (payload : α) (p : List Char) (hp : J.Marshal payload = .ok p)
    (hc : compact p = .ok p)
    (payload42 : α) (h42 : J.Marshal payload42 = .ok "\x7b\"id\":\"42\"\x7d".toList)
    (send0 : Nat → Chan (List Char)) (A B : Nat) (hAB : A ≠ B)
    (hempty : ∀ c, (send0 c).buf = [] ∧ (send0 c).closed = false)
    (hA : 1 ≤ (send0 A).cap) (hB : 2 ≤ (send0 B).cap) :
    BroadcastTaskUpdate J t payload =
      (none, [.broadcast ("\x7b\"type\":".toList ++ quote t ++ ",\"payload\":".toList ++ p ++
        "\x7d".toList)]) ∧
    BroadcastTaskUpdate J MessageTypeTaskCreated payload42 =
      (none, [.broadcast
        "\x7b\"type\":\"task_created\",\"payload\":\x7b\"id\":\"42\"\x7d\x7d".toList]) ∧
    ∃ h, (NewHub send0).Run ([.register A, .register B] ++
        (BroadcastTaskUpdate J MessageTypeTaskCreated payload42).2 ++ [.unregister A] ++
        (BroadcastTaskUpdate J MessageTypeTaskDeleted payload42).2) = .ok h ∧
      (h.send A).buf =
        ["\x7b\"type\":\"task_created\",\"payload\":\x7b\"id\":\"42\"\x7d\x7d".toList] ∧
      (h.send B).buf =
        ["\x7b\"type\":\"task_created\",\"payload\":\x7b\"id\":\"42\"\x7d\x7d".toList,
          "\x7b\"type\":\"task_deleted\",\"payload\":\x7b\"id\":\"42\"\x7d\x7d".toList] ∧
      (∀ c, "\x7b\"type\":\"task_deleted\",\"payload\":\x7b\"id\":\"42\"\x7d\x7d".toList ∈
        (h.send c).buf ↔ c = B) ∧
      h.GetClientCount = 1 := by
  have h42c : compact "\x7b\"id\":\"42\"\x7d".toList = .ok "\x7b\"id\":\"42\"\x7d".toList := rfl
  have hc1 : BroadcastTaskUpdate J MessageTypeTaskCreated payload42 =
      (none, [.broadcast
        "\x7b\"type\":\"task_created\",\"payload\":\x7b\"id\":\"42\"\x7d\x7d".toList]) :=
    BroadcastTaskUpdate_ok J MessageTypeTaskCreated payload42 _ _ h42 h42c
  have hd : BroadcastTaskUpdate J MessageTypeTaskDeleted payload42 =
      (none, [.broadcast
        "\x7b\"type\":\"task_deleted\",\"payload\":\x7b\"id\":\"42\"\x7d\x7d".toList]) :=
    BroadcastTaskUpdate_ok J MessageTypeTaskDeleted payload42 _ _ h42 h42c
  refine ⟨BroadcastTaskUpdate_ok J t payload p p hp hc, hc1, ?_⟩
  rw [hc1, hd]
  exact Run_two_clients send0 A B hAB hempty hA hB _ _ (by decide)

/-- C8, an instance: the task with id 42 as payload, clients 1 and 2. -/
theorem broadcast_frame_witness :
    BroadcastTaskUpdate taskEncoding MessageTypeTaskUpdated (Payload.task task42) =
      (none, [.broadcast ("\x7b\"type\":".toList ++ quote MessageTypeTaskUpdated ++
        ",\"payload\":".toList ++ marshalTaskPayload task42 ++ "\x7d".toList)]) ∧
    BroadcastTaskUpdate taskEncoding MessageTypeTaskCreated (Payload.task task42) =
      (none, [.broadcast
        "\x7b\"type\":\"task_created\",\"payload\":\x7b\"id\":\"42\"\x7d\x7d".toList]) ∧
    ∃ h, (NewHub mailboxes).Run ([.register 1, .register 2] ++
        (BroadcastTaskUpdate taskEncoding MessageTypeTaskCreated (Payload.task task42)).2 ++
        [.unregister 1] ++
        (BroadcastTaskUpdate taskEncoding MessageTypeTaskDeleted (Payload.task task42)).2) =
          .ok h ∧
      (h.send 1).buf =
        ["\x7b\"type\":\"task_created\",\"payload\":\x7b\"id\":\"42\"\x7d\x7d".toList] ∧
      (h.send 2).buf =
        ["\x7b\"type\":\"task_created\",\"payload\":\x7b\"id\":\"42\"\x7d\x7d".toList,
          "\x7b\"type\":\"task_deleted\",\"payload\":\x7b\"id\":\"42\"\x7d\x7d".toList] ∧
      (∀ c, "\x7b\"type\":\"task_deleted\",\"payload\":\x7b\"id\":\"42\"\x7d\x7d".toList ∈
        (h.send c).buf ↔ c = 2) ∧
      h.GetClientCount = 1 :=
  broadcast_frame taskEncoding MessageTypeTaskUpdated (Payload.task task42)
    (marshalTaskPayload task42) rfl rfl (Payload.task task42) rfl mailboxes 1 2 (by decide)
    (fun _ => ⟨rfl, rfl⟩) (by simp [mailboxes, Chan.make]) (by simp [mailboxes, Chan.make])

/-! ## C10: the error of `BroadcastTaskUpdate` -/

/-- C10 as stated fails for a payload nested deeper than the scanner of `encoding/json`
accepts: the payload is serialized, yet `BroadcastTaskUpdate` returns an error, the one of
the second call of `json.Marshal`. -/
theorem deep_payload_error :
    (∃ p, taskEncoding.Marshal (Payload.nested maxNestingDepth) = .ok p) ∧
    (BroadcastTaskUpdate taskEncoding MessageTypeTaskUpdated
      (Payload.nested maxNestingDepth)).1 =
        some (.marshaler (.invalidCharacter '[' "exceeded max depth")) :=
  ⟨⟨_, rfl⟩, congrArg Prod.fst (BroadcastTaskUpdate_rejected taskEncoding MessageTypeTaskUpdated
    (Payload.nested maxNestingDepth) _ _ rfl compact_nested)⟩

/-- C10 (amended): `BroadcastTaskUpdate` returns an error if and only if the serializer
fails on the payload or the encoding of the envelope rejects the serialized payload; the
error returned is the serializer's in the first case and that of the envelope encoding in
the second.  When it returns an error it submits nothing, so that the hub state stays as it
is; when it returns none it has submitted one Broadcast request, whatever the state of the
hub and of the mailboxes. -/
theorem broadcast_error_iff {α ε : Type} (J : Encoding α ε)
    (t : MessageType) (payload : α) (h : Hub (List Char)) :
    ((BroadcastTaskUpdate J t payload).1 ≠ none ↔
      (∃ e, J.Marshal payload = .error e) ∨
      ∃ p e, J.Marshal payload = .ok p ∧ compact p = .error e) ∧
    (∀ e, J.Marshal payload = .error e →
      (BroadcastTaskUpdate J t payload).1 = some (.payload e)) ∧
    (∀ p e, J.Marshal payload = .ok p → compact p = .error e →
      (BroadcastTaskUpdate J t payload).1 = some (.marshaler e)) ∧
    ((BroadcastTaskUpdate J t payload).1 ≠ none →
      (BroadcastTaskUpdate J t payload).2 = [] ∧
      h.Run (BroadcastTaskUpdate J t payload).2 = .ok h) ∧
    ((BroadcastTaskUpdate J t payload).1 = none →
      ∃ frame, (BroadcastTaskUpdate J t payload).2 = [.broadcast frame]) := by
  cases hp : J.Marshal payload with
  | error e =>
    rw [BroadcastTaskUpdate_error J t payload e hp]
    refine ⟨⟨fun _ => Or.inl ⟨e, rfl⟩, fun _ => by simp⟩, ?_, ?_, ?_, ?_⟩
    · intro e1 he
      cases he
      rfl
    · intro p e1 he
      cases he
    · intro _
      exact ⟨rfl, rfl⟩
    · intro hn
      cases hn
  | ok p =>
    cases hc : compact p with
    | error e =>
      rw [BroadcastTaskUpdate_rejected J t payload p e hp hc]
      refine ⟨⟨fun _ => Or.inr ⟨p, e, rfl, hc⟩, fun _ => by simp⟩, ?_, ?_, ?_, ?_⟩
      · intro e1 he
        cases he
      · intro p1 e1 he hc1
        cases he
        rw [hc] at hc1
        cases hc1
        rfl
      · intro _
        exact ⟨rfl, rfl⟩
      · intro hn
        cases hn
    | ok raw =>
      rw [BroadcastTaskUpdate_ok J t payload p raw hp hc]
      refine ⟨⟨fun hn => absurd rfl hn, ?_⟩, ?_, ?_, ?_, ?_⟩
      · rintro (⟨e, he⟩ | ⟨p1, e, he, hc1⟩)
        · cases he
        · cases he
          rw [hc] at hc1
          cases hc1
      · intro e he
        cases he
      · intro p1 e he hc1
        cases he
        rw [hc] at hc1
        cases hc1
      · intro hn
        exact absurd rfl hn
      · intro _
        exact ⟨_, rfl⟩

/-- C10, an instance: a channel as payload, which the serializer rejects. -/
theorem broadcast_error_iff_witness :
    (BroadcastTaskUpdate taskEncoding MessageTypePing Payload.channel).1 =
      some (.payload .unsupportedType) ∧
    (BroadcastTaskUpdate taskEncoding MessageTypePing Payload.channel).2 = [] ∧
    (NewHub mailboxes).Run (BroadcastTaskUpdate taskEncoding MessageTypePing Payload.channel).2 =
      .ok (NewHub mailboxes) :=
  have hw := broadcast_error_iff taskEncoding MessageTypePing Payload.channel (NewHub mailboxes)
  ⟨hw.2.1 _ rfl, hw.2.2.2.1 (by rw [hw.2.1 _ rfl]; simp)⟩

end Hub

/-! ## C9: reading an envelope back -/

/-- C9 as stated fails in two ways.  For a type tag that is not valid UTF-8 the encoder
writes the byte `0xff` as the escape of the replacement character, so the tag read back is
not the tag of the message; the message whose tag is the byte `0xfe` has the very same
encoding, so no way of reading the bytes recovers both tags.  And for a payload nested
deeper than the scanner accepts, `NewTaskMessage` builds the message but its encoding
fails, so there are no bytes to decode. -/
theorem round_trip_fails :
    (∃ m bytes m1, NewTaskMessage taskEncoding [GoRune.bad 255] Payload.null = .ok m ∧
      marshalMessage m = .ok bytes ∧
      bytes = "\x7b\"type\":\"\\ufffd\",\"payload\":null\x7d".toList ∧
      decodeEnvelope bytes = some m1 ∧ m1.type ≠ m.type ∧
      marshalMessage { type := [GoRune.bad 254], payload := m.payload } = .ok bytes) ∧
    (∃ m, NewTaskMessage taskEncoding MessageTypeTaskCreated (Payload.nested maxNestingDepth) =
        .ok m ∧
      marshalMessage m = .error (.invalidCharacter '[' "exceeded max depth")) :=
  ⟨⟨_, _, _, rfl, rfl, rfl, rfl, by decide, rfl⟩,
    ⟨_, rfl, marshalMessage_error _ _ compact_nested⟩⟩

/-- C9 (amended): envelope encoding is a function of the message alone, and for every
message built by `NewTaskMessage` from a type tag that is valid UTF-8 (inside or outside
the fixed enumeration) and a payload whose serialized bytes the encoding of the envelope
accepts and leaves as they are (compact valid JSON, nested no deeper than the scanner
accepts), encoding succeeds and decoding the bytes as a `{type, payload}` envelope yields
the same type tag and the same raw payload bytes. -/
theorem envelope_round_trip {α ε : Type} (J : Encoding α ε)
    (t : List Char) (payload : α) (m : Message)
    (hm : NewTaskMessage J (GoString.ofChars t) payload = .ok m)
    (hc : compact m.payload = .ok m.payload) :
    (∀ m1 : Message, m1.type = m.type → m1.payload = m.payload →
      marshalMessage m1 = marshalMessage m) ∧
    ∃ bytes, marshalMessage m = .ok bytes ∧ decodeEnvelope bytes = some m := by
  constructor
  · intro m1 h1 h2
    cases m1
    cases m
    simp only at h1 h2
    rw [h1, h2]
  · cases hp : J.Marshal payload with
    | error e =>
      rw [NewTaskMessage_error J _ payload e hp] at hm
      cases hm
    | ok p =>
      rw [NewTaskMessage_ok J _ payload p hp] at hm
      cases hm
      exact ⟨_, marshalMessage_ok _ _ hc, decodeEnvelope_encoded t p hc⟩

/-- C9, an instance: a status change for the task 42. -/
theorem envelope_round_trip_witness :
    (∀ m1 : Message, m1.type = MessageTypeTaskStatusChanged →
      m1.payload = marshalTaskPayload task42 →
      marshalMessage m1 = marshalMessage
        { type := MessageTypeTaskStatusChanged, payload := marshalTaskPayload task42 }) ∧
    ∃ bytes, marshalMessage
        { type := MessageTypeTaskStatusChanged, payload := marshalTaskPayload task42 } =
          .ok bytes ∧
      decodeEnvelope bytes =
        some { type := MessageTypeTaskStatusChanged, payload := marshalTaskPayload task42 } :=
  envelope_round_trip taskEncoding "task_status_changed".toList
    (Payload.task task42)
    { type := MessageTypeTaskStatusChanged, payload := marshalTaskPayload task42 } rfl rfl


end websocket
